import Mathlib

set_option linter.unusedVariables false

/-!
Verification of the `responses` HTTP-mocking library (src/responses/__init__.py)
against its natural-language specification.

The development shallowly embeds the library: pure helpers become Lean
functions, the mutable `RequestsMock` object becomes explicit state passing
over a `MockState` structure, and raised Python exceptions become `Except` /
explicit error values.  External collaborators (the `requests` transport,
`urllib` URL helpers, the `json` module, the regex engine) are modelled at
their boundary, as the spec prescribes; each such model carries a doc comment
saying what it stands for.
-/

namespace Responses

/-! ### Character and list utilities

Structural models of the Python string primitives used by the library
(`str.split`, `str.find`, `str.lower`, hex digits).  Everything recurses
structurally so that concrete witnesses evaluate inside the kernel. -/

/-- Split a character list at the first occurrence of `sep`; `none` when the
separator does not occur, otherwise the parts before and after it. -/
def splitFirst (sep : Char) : List Char → Option (List Char × List Char)
  | [] => none
  | c :: cs =>
    if c = sep then some ([], cs)
    else
      match splitFirst sep cs with
      | none => none
      | some (a, b) => some (c :: a, b)

/-- Python `s.split(sep, 1)` behaviour: when `sep` is absent the whole input is
the first component and the second is empty. -/
def splitOnceKeep (sep : Char) (l : List Char) : List Char × List Char :=
  match splitFirst sep l with
  | none => (l, [])
  | some p => p

/-- Split a character list at the last occurrence of `sep`. -/
def splitLast (sep : Char) (l : List Char) : Option (List Char × List Char) :=
  match splitFirst sep l.reverse with
  | none => none
  | some (a, b) => some (b.reverse, a.reverse)

/-- ASCII lower-casing of one character (model of `str.lower` on the ASCII
range, which is all the library lower-cases). -/
def lowerChar (c : Char) : Char :=
  if 65 ≤ c.toNat ∧ c.toNat ≤ 90 then Char.ofNat (c.toNat + 32) else c

/-- ASCII lower-casing of a string. -/
def lowerStr (s : String) : String := ⟨s.data.map lowerChar⟩

/-- Value of a hexadecimal digit character. -/
def hexVal (c : Char) : Option Nat :=
  if 48 ≤ c.toNat ∧ c.toNat ≤ 57 then some (c.toNat - 48)
  else if 97 ≤ c.toNat ∧ c.toNat ≤ 102 then some (c.toNat - 87)
  else if 65 ≤ c.toNat ∧ c.toNat ≤ 70 then some (c.toNat - 55)
  else none

/-- Characters legal inside a URL scheme (`urllib.parse.scheme_chars`). -/
def isSchemeChar (c : Char) : Bool :=
  (65 ≤ c.toNat && c.toNat ≤ 90) || (97 ≤ c.toNat && c.toNat ≤ 122) ||
    (48 ≤ c.toNat && c.toNat ≤ 57) || c = '+' || c = '-' || c = '.'

/-! ### URL parsing

Models of the `urllib.parse` helpers the library imports: `urlsplit`,
`urlunsplit`, `urlparse`, `parse_qsl` and `unquote_plus`, faithful to CPython
for the URL shapes the library manipulates. -/

/-- Result of `urllib.parse.urlsplit`. -/
structure UrlSplitResult where
  scheme : String
  netloc : String
  path : String
  query : String
  fragment : String
deriving DecidableEq

/-- Model of `urllib.parse.urlsplit` on character lists: strip the fragment,
recognise a scheme (all scheme characters before the first colon, lower-cased),
a `//`-introduced network location running up to the next `/`, `?` or `#`, and
split off the query at the first `?`. -/
def urlsplitData (url : List Char) : UrlSplitResult :=
  let frag := splitOnceKeep '#' url
  let rest0 := frag.1
  let schemeSplit :=
    match splitFirst ':' rest0 with
    | some (before, after) =>
      if before ≠ [] ∧ before.all isSchemeChar then (before.map lowerChar, after)
      else (([] : List Char), rest0)
    | none => (([] : List Char), rest0)
  let netlocSplit :=
    match schemeSplit.2 with
    | '/' :: '/' :: r =>
      let n := r.takeWhile (fun c => ¬ (c = '/' ∨ c = '?' ∨ c = '#'))
      (n, r.drop n.length)
    | other => (([] : List Char), other)
  let querySplit := splitOnceKeep '?' netlocSplit.2
  { scheme := ⟨schemeSplit.1⟩
    netloc := ⟨netlocSplit.1⟩
    path := ⟨querySplit.1⟩
    query := ⟨querySplit.2⟩
    fragment := ⟨frag.2⟩ }

/-- Model of `urllib.parse.urlsplit` on strings. -/
def urlsplit (url : String) : UrlSplitResult := urlsplitData url.data

/-- Model of `urllib.parse.urlunsplit`. -/
def urlunsplit (u : UrlSplitResult) : String :=
  let url0 := u.path
  let url1 :=
    if u.netloc ≠ "" ∨ url0.data.take 2 = ['/', '/'] then
      "//" ++ u.netloc ++ (if url0 ≠ "" ∧ url0.data.take 1 ≠ ['/'] then "/" ++ url0 else url0)
    else url0
  let url2 := if u.scheme ≠ "" then u.scheme ++ ":" ++ url1 else url1
  let url3 := if u.query ≠ "" then url2 ++ "?" ++ u.query else url2
  if u.fragment ≠ "" then url3 ++ "#" ++ u.fragment else url3

/-- Result of `urllib.parse.urlparse` (a split result whose path has had the
`;`-introduced segment parameters split off). -/
structure UrlParseResult where
  scheme : String
  netloc : String
  path : String
  params : String
  query : String
  fragment : String
deriving DecidableEq

/-- Model of `urllib.parse._splitparams`: split the path at the first `;`
occurring after the last `/` (or anywhere when there is no `/`). -/
def splitparamsData (url : List Char) : List Char × List Char :=
  if ('/' : Char) ∈ url then
    match splitLast '/' url with
    | some (before, after) =>
      match splitFirst ';' after with
      | some (a, b) => (before ++ '/' :: a, b)
      | none => (url, [])
    | none => (url, [])
  else splitOnceKeep ';' url

/-- Model of `urllib.parse.urlparse`. -/
def pyUrlparse (url : String) : UrlParseResult :=
  let u := urlsplit url
  let pp :=
    if (';' : Char) ∈ u.path.data then splitparamsData u.path.data
    else (u.path.data, [])
  { scheme := u.scheme, netloc := u.netloc, path := ⟨pp.1⟩, params := ⟨pp.2⟩
    query := u.query, fragment := u.fragment }

/-- The `(scheme, netloc, path)` triple, i.e. Python `urlparse(u)[:3]`. -/
def UrlParseResult.first3 (u : UrlParseResult) : String × String × String :=
  (u.scheme, u.netloc, u.path)

/-- Model of `urllib.parse.unquote_plus`: `+` becomes a space and `%XX`
percent-escapes are decoded.  Each percent-escape is decoded to the character
with that code point, which is exact for the ASCII range; reassembling
multi-byte UTF-8 percent sequences is the external codec's concern and is not
modelled. -/
def unquotePlusData : List Char → List Char
  | [] => []
  | '+' :: rest => ' ' :: unquotePlusData rest
  | '%' :: a :: b :: rest =>
    match hexVal a, hexVal b with
    | some x, some y => Char.ofNat (16 * x + y) :: unquotePlusData rest
    | _, _ => '%' :: unquotePlusData (a :: b :: rest)
  | c :: rest => c :: unquotePlusData rest

/-- Split on the query-pair separators `&` and `;`, keeping empty chunks
(Python-era `parse_qsl` splits on both). -/
def splitQsSeps : List Char → List (List Char)
  | [] => [[]]
  | c :: rest =>
    if c = '&' ∨ c = ';' then [] :: splitQsSeps rest
    else
      match splitQsSeps rest with
      | [] => [[c]]
      | h :: t => (c :: h) :: t

/-- Model of `urllib.parse.parse_qsl` with its default arguments
(`keep_blank_values=False`, `strict_parsing=False`): empty chunks, chunks with
no `=`, and chunks with an empty value are dropped; names and values are
`unquote_plus`-decoded. -/
def parse_qsl (qs : String) : List (String × String) :=
  (splitQsSeps qs.data).filterMap fun chunk =>
    if chunk = [] then none
    else
      match splitFirst '=' chunk with
      | none => none
      | some (n, v) =>
        if v = [] then none
        else some (⟨unquotePlusData n⟩, ⟨unquotePlusData v⟩)

/-- Model of `requests.PreparedRequest.path_url`: path (defaulting to `/`)
plus the query string. -/
def path_url (url : String) : String :=
  let p := urlsplit url
  (if p.path = "" then "/" else p.path) ++ (if p.query ≠ "" then "?" ++ p.query else "")

/-! ### Python `sorted` on `(str, str)` tuples

`BaseResponse._url_matches_strict` compares `sorted(parse_qsl(...))` lists.
Python sorts tuples of strings by code-point-lexicographic comparison; the
order is total and antisymmetric, so any sort produces the same output as
CPython's.  We use `List.insertionSort` with a structural comparison so that
witnesses evaluate in the kernel. -/

/-- Code-point lexicographic strict order on character lists (Python `str`
comparison). -/
def chListLT : List Char → List Char → Bool
  | [], [] => false
  | [], _ :: _ => true
  | _ :: _, [] => false
  | x :: xs, y :: ys =>
    if x.toNat < y.toNat then true
    else if y.toNat < x.toNat then false
    else chListLT xs ys

theorem chListLT_irrefl : ∀ a : List Char, chListLT a a = false
  | [] => rfl
  | _ :: cs => by simp [chListLT, chListLT_irrefl cs]

theorem char_eq_of_toNat_eq {a b : Char} (h : a.toNat = b.toNat) : a = b :=
  Char.ext (UInt32.ext h)

theorem chListLT_eq_of_not : ∀ a b : List Char,
    chListLT a b = false → chListLT b a = false → a = b
  | [], [], _, _ => rfl
  | [], _ :: _, h1, _ => by simp [chListLT] at h1
  | _ :: _, [], _, h2 => by simp [chListLT] at h2
  | a :: as, b :: bs, h1, h2 => by
    simp only [chListLT] at h1 h2
    by_cases hab : a.toNat < b.toNat
    · rw [if_pos hab] at h1; exact absurd h1 (by simp)
    · by_cases hba : b.toNat < a.toNat
      · rw [if_pos hba] at h2; exact absurd h2 (by simp)
      · rw [if_neg hab, if_neg hba] at h1
        rw [if_neg hba, if_neg hab] at h2
        have hc : a = b := char_eq_of_toNat_eq (by omega)
        rw [hc, chListLT_eq_of_not as bs h1 h2]

theorem chListLT_asymm : ∀ a b : List Char,
    chListLT a b = true → chListLT b a = false
  | [], [], h => by simp [chListLT] at h
  | [], _ :: _, _ => by simp [chListLT]
  | _ :: _, [], h => by simp [chListLT] at h
  | a :: as, b :: bs, h => by
    simp only [chListLT] at h ⊢
    by_cases hab : a.toNat < b.toNat
    · rw [if_neg (by omega), if_pos hab]
    · by_cases hba : b.toNat < a.toNat
      · rw [if_neg hab, if_pos hba] at h; exact absurd h (by simp)
      · rw [if_neg hab, if_neg hba] at h
        rw [if_neg hba, if_neg hab]
        exact chListLT_asymm as bs h

theorem chListLT_trans : ∀ a b c : List Char,
    chListLT a b = true → chListLT b c = true → chListLT a c = true
  | [], _, _ :: _, _, _ => rfl
  | [], [], _, h1, _ => by simp [chListLT] at h1
  | [], _ :: _, [], _, h2 => by simp [chListLT] at h2
  | _ :: _, [], _, h1, _ => by simp [chListLT] at h1
  | _ :: _, _ :: _, [], _, h2 => by simp [chListLT] at h2
  | a :: as, b :: bs, c :: cs, h1, h2 => by
    simp only [chListLT] at h1 h2 ⊢
    by_cases hab : a.toNat < b.toNat
    · by_cases hbc : b.toNat < c.toNat
      · rw [if_pos (by omega)]
      · by_cases hcb : c.toNat < b.toNat
        · rw [if_neg hbc, if_pos hcb] at h2; exact absurd h2 (by simp)
        · rw [if_pos (by omega)]
    · by_cases hba : b.toNat < a.toNat
      · rw [if_neg hab, if_pos hba] at h1; exact absurd h1 (by simp)
      · rw [if_neg hab, if_neg hba] at h1
        by_cases hbc : b.toNat < c.toNat
        · rw [if_pos (by omega)]
        · by_cases hcb : c.toNat < b.toNat
          · rw [if_neg hbc, if_pos hcb] at h2; exact absurd h2 (by simp)
          · rw [if_neg hbc, if_neg hcb] at h2
            rw [if_neg (by omega), if_neg (by omega)]
            exact chListLT_trans as bs cs h1 h2

/-- Python `<` on strings. -/
def strLT (a b : String) : Bool := chListLT a.data b.data

/-- Python `<=` on strings. -/
def strLE (a b : String) : Bool := strLT a b || a == b

/-- Python `<=` comparison of `(str, str)` tuples (lexicographic on the
components). -/
def qslLE (a b : String × String) : Bool :=
  strLT a.1 b.1 || (a.1 == b.1 && strLE a.2 b.2)

/-- The tuple order as a relation, for `List.insertionSort`. -/
def qslR (a b : String × String) : Prop := qslLE a b = true

instance : DecidableRel qslR := fun a b =>
  inferInstanceAs (Decidable (qslLE a b = true))

theorem strLT_eq_of_not {a b : String} (h1 : strLT a b = false)
    (h2 : strLT b a = false) : a = b :=
  String.ext (chListLT_eq_of_not a.data b.data h1 h2)

theorem strLE_total (a b : String) : strLE a b = true ∨ strLE b a = true := by
  by_cases h1 : strLT a b = true
  · exact Or.inl (by simp [strLE, h1])
  · by_cases h2 : strLT b a = true
    · exact Or.inr (by simp [strLE, h2])
    · have : a = b := strLT_eq_of_not (by simpa using h1) (by simpa using h2)
      exact Or.inl (by simp [strLE, this])

instance : IsTotal (String × String) qslR where
  total a b := by
    unfold qslR qslLE
    by_cases h1 : strLT a.1 b.1 = true
    · exact Or.inl (by simp [h1])
    · by_cases h2 : strLT b.1 a.1 = true
      · exact Or.inr (by simp [h2])
      · have he : a.1 = b.1 := strLT_eq_of_not (by simpa using h1) (by simpa using h2)
        rcases strLE_total a.2 b.2 with h | h
        · exact Or.inl (by simp [he, h])
        · exact Or.inr (by simp [he, h])

theorem strLE_antisymm {a b : String} (h1 : strLE a b = true)
    (h2 : strLE b a = true) : a = b := by
  simp only [strLE, Bool.or_eq_true, beq_iff_eq] at h1 h2
  rcases h1 with h1 | h1
  · rcases h2 with h2 | h2
    · exact absurd h1 (by simp [chListLT_asymm b.data a.data h2, strLT])
    · exact h2.symm
  · exact h1

instance : IsAntisymm (String × String) qslR where
  antisymm a b h1 h2 := by
    unfold qslR qslLE at h1 h2
    simp only [Bool.or_eq_true, Bool.and_eq_true, beq_iff_eq] at h1 h2
    rcases h1 with h1 | ⟨he1, hle1⟩
    · rcases h2 with h2 | ⟨he2, _⟩
      · exact absurd h1 (by simp [strLT, chListLT_asymm b.1.data a.1.data h2])
      · exact absurd h1 (by simp [strLT, he2, chListLT_irrefl])
    · rcases h2 with h2 | ⟨_, hle2⟩
      · exact absurd h2 (by simp [strLT, he1, chListLT_irrefl])
      · exact Prod.ext he1 (strLE_antisymm hle1 hle2)

theorem strLE_trans {a b c : String} (h1 : strLE a b = true)
    (h2 : strLE b c = true) : strLE a c = true := by
  simp only [strLE, Bool.or_eq_true, beq_iff_eq] at h1 h2 ⊢
  rcases h1 with h1 | h1
  · rcases h2 with h2 | h2
    · exact Or.inl (chListLT_trans _ _ _ h1 h2)
    · exact Or.inl (h2 ▸ h1)
  · exact h1 ▸ h2

instance : IsTrans (String × String) qslR where
  trans a b c h1 h2 := by
    unfold qslR qslLE at h1 h2 ⊢
    simp only [Bool.or_eq_true, Bool.and_eq_true, beq_iff_eq] at h1 h2 ⊢
    rcases h1 with h1 | ⟨he1, hle1⟩
    · rcases h2 with h2 | ⟨he2, _⟩
      · exact Or.inl (chListLT_trans _ _ _ h1 h2)
      · exact Or.inl (he2 ▸ h1)
    · rcases h2 with h2 | ⟨he2, hle2⟩
      · exact Or.inl (he1 ▸ h2)
      · exact Or.inr ⟨he1.trans he2, strLE_trans hle1 hle2⟩

/-- Model of Python `sorted` on lists of `(str, str)` tuples. -/
def pySorted (l : List (String × String)) : List (String × String) :=
  List.insertionSort qslR l

/-! ### Data model -/

/-- Model of a compiled regular expression (an `re.compile` object): the
source pattern text plus the behaviour of `pattern.match` as an abstract
predicate.  The regex engine is an external collaborator. -/
structure Pat where
  source : String
  matchFn : String → Bool

/-- A spec URL: a literal string or a compiled pattern. -/
inductive UrlSpec where
  | lit (s : String)
  | pat (p : Pat)

/-- Python `str()`/format of a spec URL (patterns render as
`re.compile('...')`), used when formatting error messages. -/
def UrlSpec.text : UrlSpec → String
  | .lit s => s
  | .pat p => "re.compile(\x27" ++ p.source ++ "\x27)"

/-- The exceptions this model distinguishes. -/
inductive Exn where
  | connectionError (msg : String)
  | assertionFailed (msg : String)
  | valueError (msg : String)
  | notImplementedError
  | custom (tag : String)
deriving DecidableEq

/-- The body slot of a static `Response`: a string body, or an exception
instance to raise instead of responding. -/
inductive RBody where
  | str (s : String)
  | exn (e : Exn)
deriving DecidableEq

/-- A value of the dispatcher-attached `request.params` mapping. -/
inductive ParamVal where
  | single (v : String)
  | multi (vs : List String)
deriving DecidableEq

/-- Model of the prepared request object the adapter hands to `_on_request`:
method, full URL, raw body, and the mutable `params` slot the dispatcher
populates. -/
structure Request where
  method : String
  url : String
  body : Option String
  params : List (String × ParamVal)

/-- Model of the stdlib `http_client.responses` reason-phrase table,
restricted to the status codes this development exercises. -/
def http_reason (status : Nat) : Option String :=
  if status = 200 then some "OK"
  else if status = 404 then some "Not Found"
  else if status = 500 then some "Internal Server Error"
  else none

/-- Model of the materialized raw response (`urllib3.HTTPResponse`; the
`requests` adapter's `build_response` wrapper is the identity on this
descriptor): status, reason phrase, body bytes and headers. -/
structure HTTPResp where
  status : Nat
  reason : Option String
  body : String
  headers : List (String × String)
deriving DecidableEq

/-- Result of a user callback: an exception, or a `(status, headers, body)`
triple whose body element may itself be an exception. -/
inductive CbResult where
  | exn (e : Exn)
  | triple (status : Nat) (headers : List (String × String)) (body : RBody)

/-- Variant payload of a registered spec: a bare `BaseResponse` (used as a
removal/replacement key; its `get_response` raises `NotImplementedError`), a
static `Response`, or a `CallbackResponse`. -/
inductive SpecKind where
  | base
  | static (body : RBody) (status : Nat) (headers : Option (List (String × String)))
      (stream : Bool) (content_type : Option String)
  | callback (cb : Request → CbResult) (stream : Bool) (content_type : Option String)

/-- Model of a registered mock spec (`BaseResponse` and its variants).  The
`body_match` field embeds the Python `match` attribute (the ordered list of
body-matcher predicates); `match` is a Lean keyword, hence the name. -/
structure Spec where
  method : String
  url : UrlSpec
  match_querystring : Bool
  body_match : List (Option String → Bool)
  call_count : Nat
  kind : SpecKind

/-! ### Matcher -/

/-- Model of `_has_unicode`: some character has code point above 128. -/
def _has_unicode (s : String) : Bool := s.data.any (fun c => 128 < c.toNat)

/-- UTF-8 encoding of one character, as byte values. -/
def utf8Bytes (c : Char) : List Nat :=
  let n := c.toNat
  if n < 128 then [n]
  else if n < 2048 then [192 + n / 64, 128 + n % 64]
  else if n < 65536 then [224 + n / 4096, 128 + (n / 64) % 64, 128 + n % 64]
  else [240 + n / 262144, 128 + (n / 4096) % 64, 128 + (n / 64) % 64, 128 + n % 64]

/-- Uppercase hexadecimal digit. -/
def hexDigitUpper (n : Nat) : Char :=
  if n < 10 then Char.ofNat (48 + n) else Char.ofNat (55 + n)

/-- Model of `urllib.parse.quote` applied to a single character: each UTF-8
byte as an uppercase percent-escape. -/
def quoteChar (c : Char) : List Char :=
  (utf8Bytes c).foldr
    (fun b acc => '%' :: hexDigitUpper (b / 16) :: hexDigitUpper (b % 16) :: acc) []

/-- Split a character list on every occurrence of `sep`. -/
def splitAllChar (sep : Char) : List Char → List (List Char)
  | [] => [[]]
  | c :: rest =>
    if c = sep then [] :: splitAllChar sep rest
    else
      match splitAllChar sep rest with
      | [] => [[c]]
      | h :: t => (c :: h) :: t

/-- A punycode-encoded domain label.  The punycode codec is an external
collaborator (`str.encode("punycode")`); the model keeps it opaque as the
identity on the label text.  This path is only reachable for URLs containing
non-ASCII characters, which no verified claim exercises. -/
def punycodeLabel (s : String) : String := s

/-- Model of `_clean_unicode`: punycode non-ASCII domain labels (with the
`xn--` prefix) and percent-quote non-ASCII characters in the rest of the URL.
The Python-2-only re-encoding branch is omitted (it is a no-op on Python 3
strings). -/
def _clean_unicode (url : String) : String :=
  let u := urlsplitData url.data
  let url1 :=
    if _has_unicode u.netloc then
      let domains := (splitAllChar '.' u.netloc.data).map fun d =>
        if _has_unicode ⟨d⟩ then "xn--" ++ punycodeLabel ⟨d⟩ else (⟨d⟩ : String)
      urlunsplit { u with netloc := ⟨List.intercalate ['.'] (domains.map String.data)⟩ }
    else url
  ⟨url1.data.foldr (fun c acc => if 128 < c.toNat then quoteChar c ++ acc else c :: acc) []⟩

/-- Model of `urllib3.util.parse_url(u).url` (an external collaborator): parse
and re-serialize the URL, the identity on the well-formed URLs this library
handles. -/
def parse_url_norm (u : String) : String := urlunsplit (urlsplit u)

/-- Model of `BaseResponse._url_matches_strict`: compare the parsed
`(scheme, netloc, path)` triples exactly, then the sorted `parse_qsl` pair
lists. -/
def _url_matches_strict (url other : String) : Bool :=
  let url_parsed := pyUrlparse url
  let other_parsed := pyUrlparse other
  if url_parsed.first3 ≠ other_parsed.first3 then false
  else pySorted (parse_qsl url_parsed.query) == pySorted (parse_qsl other_parsed.query)

/-- The tri-state `match_querystring` constructor argument (`_unspecified`
acts as the sentinel default). -/
inductive MatchQS where
  | unspecified
  | given (b : Bool)

/-- Model of `BaseResponse._should_match_querystring`: an explicit argument
wins; pattern URLs default to false; literal URLs default to whether they
carry a query string. -/
def _should_match_querystring (url : UrlSpec) (arg : MatchQS) : Bool :=
  match arg with
  | .given b => b
  | .unspecified =>
    match url with
    | .pat _ => false
    | .lit s => !((pyUrlparse s).query == "")

/-- Model of `BaseResponse._url_matches`.  For a literal URL: clean unicode if
needed, then either strict matching on the `parse_url`-normalized URL, or
comparison of the normalized everything-before-`?` portions.  For a pattern:
the pattern's own `match`. -/
def _url_matches (url : UrlSpec) (other : String) (match_querystring : Bool) : Bool :=
  match url with
  | .lit s =>
    let s1 := if _has_unicode s then _clean_unicode s else s
    if match_querystring then _url_matches_strict (parse_url_norm s1) other
    else
      let url_without_qs : String := ⟨(splitOnceKeep '?' s1.data).1⟩
      let other_without_qs : String := ⟨(splitOnceKeep '?' other.data).1⟩
      parse_url_norm url_without_qs == other_without_qs
  | .pat p => p.matchFn other

/-- Model of `BaseResponse._body_matches`: every registered body matcher must
accept the raw request body. -/
def _body_matches (matchers : List (Option String → Bool))
    (request_body : Option String) : Bool :=
  matchers.all fun m => m request_body

/-- Model of `BaseResponse.matches`: method equality, URL match, then body
matchers, together with the failing stage's reason string. -/
def Spec.matches (s : Spec) (request : Request) : Bool × String :=
  if ¬ (request.method == s.method) then (false, "Method does not match")
  else if ¬ _url_matches s.url request.url s.match_querystring then
    (false, "URL does not match")
  else if ¬ _body_matches s.body_match request.body then
    (false, "Parameters do not match")
  else (true, "")

/-- Model of `_ensure_url_default_path`: literal URLs with an empty path get
path `/` (the URL is reassembled through `urlunsplit` either way); patterns
are untouched. -/
def ensure_url_default_path (url : UrlSpec) : UrlSpec :=
  match url with
  | .lit s =>
    let u := urlsplit s
    .lit (urlunsplit (if u.path = "" then { u with path := "/" } else u))
  | .pat p => .pat p

/-- Model of `BaseResponse.__init__`: apply the default path to the URL and
resolve the `match_querystring` tri-state.  With `kind := .base` this is the
bare `BaseResponse(method=..., url=...)` object `remove` and `replace` use as
a lookup key. -/
def BaseResponse.init (method : String) (url : UrlSpec) (match_querystring : MatchQS)
    (body_match : List (Option String → Bool)) (kind : SpecKind) : Spec :=
  let u := ensure_url_default_path url
  { method := method
    url := u
    match_querystring := _should_match_querystring u match_querystring
    body_match := body_match
    call_count := 0
    kind := kind }

/-! ### JSON

Model of the stdlib `json` module (an external collaborator): a value
universe, `dumps` with the default separators `(', ', ': ')`, and `loads`.
Numbers are modelled as integers and serialization writes non-ASCII
characters raw (the `ensure_ascii=False` convention); neither restriction is
visible to any claim under verification.  Arrays and objects are mutual
inductives so that everything recurses structurally. -/

mutual

/-- A Python JSON value. -/
inductive Json where
  | null
  | bool (b : Bool)
  | num (n : Int)
  | str (s : String)
  | arr (xs : JsonList)
  | obj (kvs : JsonObj)

/-- A JSON array's elements. -/
inductive JsonList where
  | nil
  | cons (hd : Json) (tl : JsonList)

/-- A JSON object's members, in insertion order. -/
inductive JsonObj where
  | nil
  | cons (k : String) (v : Json) (tl : JsonObj)

end

/-- Decimal digit character. -/
def digitChar (n : Nat) : Char := Char.ofNat (48 + n)

/-- Decimal digits of a natural number (fuel-indexed so the recursion is
structural). -/
def natDigitsAux : Nat → Nat → List Char
  | 0, _ => []
  | fuel + 1, n =>
    if n < 10 then [digitChar n]
    else natDigitsAux fuel (n / 10) ++ [digitChar (n % 10)]

/-- Decimal digits of a natural number. -/
def natDigits (n : Nat) : List Char := natDigitsAux (n + 1) n

/-- Python `repr` of an integer. -/
def intDigits (n : Int) : List Char :=
  if n < 0 then '-' :: natDigits (-n).toNat else natDigits n.toNat

/-- Lowercase hexadecimal digit. -/
def hexDigitLower (n : Nat) : Char :=
  if n < 10 then Char.ofNat (48 + n) else Char.ofNat (87 + n)

/-- JSON string escaping of one character, following the stdlib escape table:
two-character escapes for the quote, the backslash and the named control
characters, `\u00XX` for the remaining control characters, everything else
raw. -/
def escapeChar (c : Char) : List Char :=
  if c = '"' then ['\\', '"']
  else if c = '\\' then ['\\', '\\']
  else if c = '\n' then ['\\', 'n']
  else if c = '\t' then ['\\', 't']
  else if c = '\r' then ['\\', 'r']
  else if c.toNat = 8 then ['\\', 'b']
  else if c.toNat = 12 then ['\\', 'f']
  else if c.toNat < 32 then
    ['\\', 'u', '0', '0', hexDigitLower (c.toNat / 16), hexDigitLower (c.toNat % 16)]
  else [c]

/-- JSON string escaping of a character sequence. -/
def escapeStr (s : List Char) : List Char := s.foldr (fun c acc => escapeChar c ++ acc) []

/-- A JSON string literal: quote, escaped content, quote. -/
def quoteJsonStr (s : String) : List Char := '"' :: (escapeStr s.data ++ ['"'])

mutual

/-- Model of `json.dumps` (default separators), producing characters. -/
def Json.dumpsData : Json → List Char
  | .null => "null".data
  | .bool true => "true".data
  | .bool false => "false".data
  | .num n => intDigits n
  | .str s => quoteJsonStr s
  | .arr xs => '[' :: (dumpsList xs ++ [']'])
  | .obj kvs => '\x7b' :: (dumpsMembers kvs ++ ['\x7d'])

/-- Array elements joined by `", "`. -/
def dumpsList : JsonList → List Char
  | .nil => []
  | .cons hd .nil => Json.dumpsData hd
  | .cons hd (.cons h2 t2) =>
    Json.dumpsData hd ++ ',' :: ' ' :: dumpsList (.cons h2 t2)

/-- Object members `"key": value` joined by `", "`. -/
def dumpsMembers : JsonObj → List Char
  | .nil => []
  | .cons k v .nil => quoteJsonStr k ++ ':' :: ' ' :: Json.dumpsData v
  | .cons k v (.cons k2 v2 t2) =>
    quoteJsonStr k ++ ':' :: ' ' :: Json.dumpsData v ++
      ',' :: ' ' :: dumpsMembers (.cons k2 v2 t2)

end

/-- Model of `json.dumps` as a string. -/
def Json.dumps (v : Json) : String := ⟨Json.dumpsData v⟩

/-- Whitespace recognised by the JSON parser. -/
def isWsCh (c : Char) : Bool := c = ' ' || c = '\n' || c = '\t' || c = '\r'

/-- Skip leading whitespace. -/
def skipWs : List Char → List Char
  | [] => []
  | c :: cs => if isWsCh c then skipWs cs else c :: cs

/-- Is the first character `c`? -/
def headIs (l : List Char) (c : Char) : Bool :=
  match l with
  | d :: _ => d = c
  | [] => false

/-- Is the first character a decimal digit? -/
def isDigitCh (c : Char) : Bool := 48 ≤ c.toNat && c.toNat ≤ 57

/-- Does the list start with a decimal digit? -/
def headIsDigit (l : List Char) : Bool :=
  match l with
  | d :: _ => isDigitCh d
  | [] => false

/-- Accumulate leading decimal digits. -/
def parseDigitsAux : List Char → Nat → Nat × List Char
  | [], acc => (acc, [])
  | c :: cs, acc =>
    if isDigitCh c then parseDigitsAux cs (10 * acc + (c.toNat - 48))
    else (acc, c :: cs)

/-- Decode a two-character escape. -/
def escDecode (e : Char) : Option Char :=
  if e = '"' then some '"'
  else if e = '\\' then some '\\'
  else if e = '/' then some '/'
  else if e = 'b' then some (Char.ofNat 8)
  else if e = 'f' then some (Char.ofNat 12)
  else if e = 'n' then some '\n'
  else if e = 'r' then some '\r'
  else if e = 't' then some '\t'
  else none

/-- Parse the body of a JSON string literal (after the opening quote), up to
and including the closing quote. -/
def parseStrBody : List Char → Option (List Char × List Char)
  | [] => none
  | c :: rest =>
    if c = '"' then some ([], rest)
    else if c = '\\' then
      match rest with
      | [] => none
      | e :: rest2 =>
        if e = 'u' then
          match rest2 with
          | a :: b :: c2 :: d :: rest3 =>
            match hexVal a, hexVal b, hexVal c2, hexVal d with
            | some x, some y, some z, some w =>
              (parseStrBody rest3).map fun p =>
                (Char.ofNat (4096 * x + 256 * y + 16 * z + w) :: p.1, p.2)
            | _, _, _, _ => none
          | _ => none
        else
          match escDecode e with
          | some c3 => (parseStrBody rest2).map fun p => (c3 :: p.1, p.2)
          | none => none
    else (parseStrBody rest).map fun p => (c :: p.1, p.2)

mutual

/-- Model of the JSON reader: parse one value (fuel-indexed so the mutual
recursion is structural). -/
def parseVal : Nat → List Char → Option (Json × List Char)
  | 0, _ => none
  | fuel + 1, input =>
    let t := skipWs input
    if List.isPrefixOf ['n', 'u', 'l', 'l'] t then some (.null, t.drop 4)
    else if List.isPrefixOf ['t', 'r', 'u', 'e'] t then some (.bool true, t.drop 4)
    else if List.isPrefixOf ['f', 'a', 'l', 's', 'e'] t then some (.bool false, t.drop 5)
    else if headIs t '"' then (parseStrBody t.tail).map fun p => (.str ⟨p.1⟩, p.2)
    else if headIs t '-' then
      if headIsDigit t.tail then
        let p := parseDigitsAux t.tail 0
        some (.num (-(p.1 : Int)), p.2)
      else none
    else if headIsDigit t then
      let p := parseDigitsAux t 0
      some (.num (p.1 : Int), p.2)
    else if headIs t '[' then parseArrItems fuel t.tail
    else if headIs t '\x7b' then parseObjItems fuel t.tail
    else none

/-- Parse the items of an array (after the opening bracket), including the
closing bracket. -/
def parseArrItems : Nat → List Char → Option (Json × List Char)
  | 0, _ => none
  | fuel + 1, input =>
    let t := skipWs input
    if headIs t ']' then some (.arr .nil, t.tail)
    else
      match parseVal fuel t with
      | none => none
      | some (v, rest1) =>
        let r := skipWs rest1
        if headIs r ',' then
          match parseArrItems fuel r.tail with
          | some (Json.arr xs, rest3) => some (.arr (.cons v xs), rest3)
          | _ => none
        else if headIs r ']' then some (.arr (.cons v .nil), r.tail)
        else none

/-- Parse the members of an object (after the opening brace), including the
closing brace. -/
def parseObjItems : Nat → List Char → Option (Json × List Char)
  | 0, _ => none
  | fuel + 1, input =>
    let t := skipWs input
    if headIs t '\x7d' then some (.obj .nil, t.tail)
    else if headIs t '"' then
      match parseStrBody t.tail with
      | none => none
      | some (k, rest1) =>
        let r1 := skipWs rest1
        if headIs r1 ':' then
          match parseVal fuel r1.tail with
          | none => none
          | some (v, rest2) =>
            let r2 := skipWs rest2
            if headIs r2 ',' then
              match parseObjItems fuel r2.tail with
              | some (Json.obj kvs, rest3) => some (.obj (.cons ⟨k⟩ v kvs), rest3)
              | _ => none
            else if headIs r2 '\x7d' then some (.obj (.cons ⟨k⟩ v .nil), r2.tail)
            else none
        else none
    else none

end

/-- Model of `json.loads`: parse one value with ample fuel and require only
trailing whitespace. -/
def Json.loads (s : String) : Option Json :=
  match parseVal (2 * s.length + 2) s.data with
  | some (v, rest) => if skipWs rest = [] then some v else none
  | none => none

/-! ### Response materialization -/

/-- Join strings with `", "`. -/
def joinComma : List String → String
  | [] => ""
  | [s] => s
  | s :: t :: rest => s ++ ", " ++ joinComma (t :: rest)

/-- Model of `BaseResponse.get_headers` (an `HTTPHeaderDict`, in which
duplicate headers are legal): the content type first when set, then the
declared extra headers. -/
def get_headers (content_type : Option String)
    (headers : Option (List (String × String))) : List (String × String) :=
  (match content_type with
   | some ct => [("Content-Type", ct)]
   | none => []) ++ headers.getD []

/-- Model of `HTTPHeaderDict.__getitem__`: the values of all
case-insensitively matching headers joined with `", "`; `none` when the key
is absent. -/
def hdGet (headers : List (String × String)) (key : String) : Option String :=
  match headers.filter (fun h => lowerStr h.1 == lowerStr key) with
  | [] => none
  | h :: t => some (joinComma ((h :: t).map Prod.snd))

/-- Model of `HTTPHeaderDict.pop`: drop every case-insensitively matching
header. -/
def hdPop (headers : List (String × String)) (key : String) : List (String × String) :=
  headers.filter fun h => !(lowerStr h.1 == lowerStr key)

/-- Model of `get_response` on each spec variant: the exception to raise, or
the materialized raw response.  A bare `BaseResponse` raises
`NotImplementedError`; a static `Response` raises its body when that is an
exception instance; a `CallbackResponse` invokes the callback and lets a
callback-supplied content type displace the declared default. -/
def Spec.get_response (s : Spec) (request : Request) : Except Exn HTTPResp :=
  match s.kind with
  | .base => .error .notImplementedError
  | .static body status headers _ content_type =>
    match body with
    | .exn e => .error e
    | .str b =>
      .ok { status := status
            reason := http_reason status
            body := b
            headers := get_headers content_type headers }
  | .callback cb _ content_type =>
    let headers := get_headers content_type none
    match cb request with
    | .exn e => .error e
    | .triple status r_headers body =>
      match body with
      | .exn e => .error e
      | .str b =>
        let has_content_type := r_headers.any fun h => lowerStr h.1 == "content-type"
        let headers1 := if has_content_type then hdPop headers "Content-Type" else headers
        .ok { status := status
              reason := http_reason status
              body := b
              headers := headers1 ++ r_headers }

/-- The `content_type` constructor argument of `Response` (`UNSET` sentinel
versus an explicit value, which may itself be `None`). -/
inductive CTArg where
  | unset
  | given (ct : Option String)

/-- Model of `Response.__init__`.  A `json` argument requires a falsy body
(the Python `assert not body`, embedded as the error case), replaces the body
with `json.dumps` and defaults an unset content type to `application/json`;
an unset content type otherwise defaults to `text/plain` (with a charset
marker for bodies containing non-ASCII text). -/
def Response.init (method : String) (url : UrlSpec) (body : RBody)
    (json : Option Json) (status : Nat) (headers : Option (List (String × String)))
    (stream : Bool) (content_type : CTArg) (match_querystring : MatchQS)
    (body_match : List (Option String → Bool)) : Except Exn Spec :=
  match json with
  | some j =>
    if ¬ (body = .str "") then .error (.assertionFailed "assert not body")
    else
      let body1 := RBody.str (Json.dumps j)
      let ct1 : Option String :=
        match content_type with
        | .unset => some "application/json"
        | .given ct => ct
      .ok (BaseResponse.init method url match_querystring body_match
        (.static body1 status headers stream ct1))
  | none =>
    let ct1 : Option String :=
      match content_type with
      | .unset =>
        match body with
        | .str b => if _has_unicode b then some "text/plain; charset=utf-8" else some "text/plain"
        | .exn _ => some "text/plain"
      | .given ct => ct
    .ok (BaseResponse.init method url match_querystring body_match
      (.static body status headers stream ct1))

/-- Model of `CallbackResponse.__init__` (at the `add_callback` call site
`content_type` defaults to `"text/plain"` and `match_querystring` to
`False`). -/
def CallbackResponse.init (method : String) (url : UrlSpec) (cb : Request → CbResult)
    (stream : Bool) (content_type : Option String) (match_querystring : MatchQS)
    (body_match : List (Option String → Bool)) : Spec :=
  BaseResponse.init method url match_querystring body_match (.callback cb stream content_type)

/-! ### Registry operations -/

/-- A spec URL as the string `BaseResponse.__eq__` compares: the literal
itself, or a compiled pattern's source pattern text. -/
def urlAsString (u : UrlSpec) : String :=
  match u with
  | .lit s => s
  | .pat p => p.source

/-- Model of `BaseResponse.__eq__`: method equality, then URL equality as
strings, a compiled pattern contributing its source pattern text. -/
def specEq (a b : Spec) : Bool :=
  if ¬ (a.method == b.method) then false
  else urlAsString a.url == urlAsString b.url

/-- Model of `list.remove`: drop the first equal entry. -/
def pyListRemove (l : List Spec) (x : Spec) : List Spec :=
  match l with
  | [] => []
  | m :: rest => if specEq m x then rest else m :: pyListRemove rest x

theorem pyListRemove_length_lt : ∀ (l : List Spec) (x : Spec),
    (l.any fun m => specEq m x) = true → (pyListRemove l x).length < l.length
  | [], _, h => by simp at h
  | m :: rest, x, h => by
    by_cases hm : specEq m x
    · simp [pyListRemove, hm]
    · have hr : (rest.any fun m => specEq m x) = true := by
        simpa [hm] using h
      simpa [pyListRemove, hm] using pyListRemove_length_lt rest x hr

/-- Model of the `remove` loop
`while response in self._matches: self._matches.remove(response)`. -/
def removeWhile (l : List Spec) (x : Spec) : List Spec :=
  if h : (l.any fun m => specEq m x) = true then removeWhile (pyListRemove l x) x
  else l
termination_by l.length
decreasing_by exact pyListRemove_length_lt l x h

/-- Model of `RequestsMock.remove` given a spec object. -/
def removeSpec (registry : List Spec) (response : Spec) : List Spec :=
  removeWhile registry response

/-- Model of `RequestsMock.remove(method, url)`: the lookup key is a bare
`BaseResponse` constructed from the method and URL. -/
def removeMethodUrl (registry : List Spec) (method : String) (url : UrlSpec) : List Spec :=
  removeWhile registry (BaseResponse.init method url .unspecified [] .base)

/-- Model of `list.index` (restricted to the equality `BaseResponse.__eq__`):
the index of the first equal entry, `ValueError` as `none`. -/
def pyIndexAux (x : Spec) : List Spec → Option Nat
  | [] => none
  | m :: rest => if specEq m x then some 0 else (pyIndexAux x rest).map (· + 1)

/-- Model of `RequestsMock.replace` given the new spec object: overwrite the
first equal entry in place, raising `ValueError` when none exists. -/
def replaceSpec (registry : List Spec) (response : Spec) : Except Exn (List Spec) :=
  match pyIndexAux response registry with
  | none => .error (.valueError ("Response is not registered for URL " ++ response.url.text))
  | some index => .ok (registry.set index response)

/-- Model of `RequestsMock.add` given a spec object: append. -/
def addSpec (registry : List Spec) (response : Spec) : List Spec := registry ++ [response]

/-- Model of `RequestsMock.upsert`: `replace`, falling back to `add` when
`replace` raises `ValueError`. -/
def upsertSpec (registry : List Spec) (response : Spec) : List Spec :=
  match replaceSpec registry response with
  | .ok l => l
  | .error _ => addSpec registry response

/-! ### Dispatcher and session -/

/-- A logged response-or-error value. -/
inductive RespOrErr where
  | resp (r : HTTPResp)
  | exn (e : Exn)

/-- A passthrough entry: a literal URL prefix string or a compiled pattern. -/
inductive Passthru where
  | lit (s : String)
  | pat (p : Pat)

/-- Does a passthrough entry allow this URL (`p.match(url)` for patterns,
`url.startswith(p)` for strings)? -/
def passthruHit (p : Passthru) (url : String) : Bool :=
  match p with
  | .pat q => q.matchFn url
  | .lit s => List.isPrefixOf s.data url.data

/-- The session state: the ordered registry (`_matches`), the call log
(`_calls`), the passthrough entries and the teardown-assertion flag.  The
`response_callback` hook is modelled in its default `None` configuration;
the patcher plumbing of `start`/`stop` is external. -/
structure MockState where
  _matches : List Spec
  _calls : List (Request × RespOrErr)
  passthru_prefixes : List Passthru
  assert_all_requests_are_fired : Bool

/-- Result of `_find_match`: the winning spec (when any), its index within
the post-scan registry (`none` when the multiple-match rule popped it), the
registry after the scan, and the failure reasons collected before the scan
ended. -/
structure FindResult where
  found_match : Option Spec
  found_idx : Option Nat
  registry : List Spec
  reasons : List String

/-- The scan loop of `_find_match`: `i` is the enumeration index, `found` the
first match so far, `acc` the failure reasons collected so far.  On a second
match the first one is popped from the registry and returned at once. -/
def findMatchGo (request : Request) (orig : List Spec) :
    List Spec → Nat → Option (Nat × Spec) → List String → FindResult
  | [], _, found, acc =>
    { found_match := found.map Prod.snd, found_idx := found.map Prod.fst
      registry := orig, reasons := acc }
  | m :: rest, i, found, acc =>
    let mr := m.matches request
    if mr.1 then
      match found with
      | none => findMatchGo request orig rest (i + 1) (some (i, m)) acc
      | some (fi, fm) =>
        { found_match := some fm, found_idx := none
          registry := orig.eraseIdx fi, reasons := acc }
    else findMatchGo request orig rest (i + 1) found (acc ++ [mr.2])

/-- Model of `RequestsMock._find_match`. -/
def _find_match (registry : List Spec) (request : Request) : FindResult :=
  findMatchGo request registry registry 0 none []

/-- One `itertools.groupby` pass: maximal runs of consecutive pairs sharing a
key, keeping each run's values in order. -/
def groupRunsAux : List (String × String) → String → List String →
    List (String × List String)
  | [], k, acc => [(k, acc.reverse)]
  | (k2, v2) :: rest, k, acc =>
    if k2 == k then groupRunsAux rest k (v2 :: acc)
    else (k, acc.reverse) :: groupRunsAux rest k2 [v2]

/-- Group a pair list into maximal runs of consecutive equal keys
(`itertools.groupby` keyed on the pair's first component). -/
def groupRuns : List (String × String) → List (String × List String)
  | [] => []
  | (k, v) :: rest => groupRunsAux rest k [v]

/-- Python dict assignment `d[k] = v`: overwrite in place (keeping the key's
original position), else append. -/
def dictSet (d : List (String × ParamVal)) (k : String) (v : ParamVal) :
    List (String × ParamVal) :=
  match d with
  | [] => [(k, v)]
  | (k2, v2) :: rest => if k2 == k then (k2, v) :: rest else (k2, v2) :: dictSet rest k v

/-- Python dict lookup. -/
def dictGet (d : List (String × ParamVal)) (k : String) : Option ParamVal :=
  match d with
  | [] => none
  | (k2, v2) :: rest => if k2 == k then some v2 else dictGet rest k

/-- Collapse one run's values: a length-one run to its single value,
otherwise the ordered list. -/
def runValue (vs : List String) : ParamVal :=
  match vs with
  | [v] => .single v
  | vs => .multi vs

/-- Model of `RequestsMock._parse_request_params`: `parse_qsl` of the URL's
query, grouped by `itertools.groupby` into consecutive runs, each run of
length one collapsing to its single value, assigned into a dict in run
order. -/
def _parse_request_params (url : String) : List (String × ParamVal) :=
  (groupRuns (parse_qsl (pyUrlparse url).query)).foldl
    (fun d kv => dictSet d kv.1 (runValue kv.2)) []

/-- How one dispatched call ends: a returned response, a raised exception, or
a passthrough to the real transport. -/
inductive DispatchResult where
  | resp (r : HTTPResp)
  | raised (e : Exn)
  | passthru

/-- Concatenate strings (the `error_msg +=` loop). -/
def strConcat (l : List String) : String := l.foldr (· ++ ·) ""

/-- The no-match `ConnectionError` message: the request line, then one line
per registered spec with its failure reason. -/
def noMatchMsg (request : Request) (registry : List Spec) (reasons : List String) : String :=
  "Connection refused by Responses - the call doesn\x27t match any registered mock.\n\nRequest: \n- "
    ++ request.method ++ " " ++ request.url ++ "\n\nAvailable matches:\n"
    ++ strConcat ((registry.zip reasons).map fun p =>
         "- " ++ p.1.method ++ " " ++ p.1.url.text ++ " " ++ p.2 ++ "\n")

/-- Overwrite the entry at an index through a function (Python
`self._matches[i].attr = ...` style aliasing made explicit). -/
def listModify (f : Spec → Spec) : Nat → List Spec → List Spec
  | _, [] => []
  | 0, a :: l => f a :: l
  | n + 1, a :: l => a :: listModify f n l

/-- `match.call_count += 1` through the registry alias (a no-op on the
registry when the spec was already popped from it). -/
def incAt (registry : List Spec) (idx : Option Nat) : List Spec :=
  match idx with
  | some i => listModify (fun m => { m with call_count := m.call_count + 1 }) i registry
  | none => registry

/-- The outcome a given spec produces for a request: the raised exception or
the returned response (the found-match arm of `_on_request`). -/
def answerFor (m : Spec) (request2 : Request) : DispatchResult :=
  match m.get_response request2 with
  | .error e => .raised e
  | .ok r => .resp r

/-- The call-log value a given spec produces for a request. -/
def logFor (m : Spec) (request2 : Request) : RespOrErr :=
  match m.get_response request2 with
  | .error e => .exn e
  | .ok r => .resp r

/-- The request after `request.params = self._parse_request_params(request.path_url)`. -/
def withParams (request : Request) : Request :=
  { request with params := _parse_request_params (path_url request.url) }

/-- Model of `RequestsMock._on_request` (with `response_callback = None`, its
default): find a match (possibly consuming it), attach the parsed params to
the request, then passthrough / no-match error / materialization, logging
every completed non-passthrough dispatch and bumping the winning spec's
`call_count` on both the response and the exception paths.
`adapter.build_response` and the forcing of non-streaming bodies are external
transport glue with no effect on this state. -/
def _on_request (st : MockState) (request : Request) : DispatchResult × MockState :=
  let fr := _find_match st._matches request
  let request2 := withParams request
  match fr.found_match with
  | none =>
    if st.passthru_prefixes.any (fun p => passthruHit p request.url) then
      (.passthru, { st with _matches := fr.registry })
    else
      let e := Exn.connectionError (noMatchMsg request2 fr.registry fr.reasons)
      (.raised e,
        { st with _matches := fr.registry, _calls := st._calls ++ [(request2, .exn e)] })
  | some fm =>
    match fm.get_response request2 with
    | .error e =>
      (.raised e,
        { st with _matches := incAt fr.registry fr.found_idx
                  _calls := st._calls ++ [(request2, .exn e)] })
    | .ok r =>
      (.resp r,
        { st with _matches := incAt fr.registry fr.found_idx
                  _calls := st._calls ++ [(request2, .resp r)] })

/-- Iterate `_on_request` with the same request. -/
def dispatchN : Nat → MockState → Request → MockState
  | 0, st, _ => st
  | n + 1, st, request => dispatchN n (_on_request st request).2 request

/-- Model of `RequestsMock.reset`: clear the registry and the call log. -/
def resetState (st : MockState) : MockState := { st with _matches := [], _calls := [] }

/-- Python `repr` of the unfired `(method, url)` list in the teardown
assertion message. -/
def reprPairs (l : List Spec) : String :=
  "[" ++ joinComma (l.map fun m =>
    "(\x27" ++ m.method ++ "\x27, \x27" ++ m.url.text ++ "\x27)") ++ "]"

/-- Model of `RequestsMock.stop` minus the patcher plumbing: the assertion it
raises, as `some` exception (`none` when it passes: assertions disabled,
`allow_assert` false, or every spec fired). -/
def stopCheck (st : MockState) (allow_assert : Bool) : Option Exn :=
  if !st.assert_all_requests_are_fired then none
  else if !allow_assert then none
  else
    let not_called := st._matches.filter fun m => m.call_count == 0
    if not_called.isEmpty then none
    else some (.assertionFailed ("Not all requests have been executed " ++ reprPairs not_called))

/-- Model of `RequestsMock.__exit__`: `success` is whether the scope body
raised no exception; `stop(allow_assert=success)` runs first and `reset()`
only afterwards, so an assertion raised by `stop` propagates with the reset
never reached. -/
def exitCtx (st : MockState) (excRaised : Bool) : Option Exn × MockState :=
  let success := !excRaised
  match stopCheck st success with
  | some e => (some e, st)
  | none => (none, resetState st)

/-! ### Concrete instances used by witnesses and counterexamples -/

/-- A concrete static GET spec for the given URL with body `"hello"`. -/
def exSpec (u : String) : Spec :=
  BaseResponse.init "GET" (.lit u) .unspecified []
    (.static (.str "hello") 200 none false (some "text/plain"))

/-- A concrete GET request to `http://example.com/`. -/
def exReq : Request :=
  { method := "GET", url := "http://example.com/", body := none, params := [] }

/-- A session state holding the given registry, with an empty call log, no
passthrough entries, and the teardown assertion enabled. -/
def exState (l : List Spec) : MockState :=
  { _matches := l
    _calls := []
    passthru_prefixes := []
    assert_all_requests_are_fired := true }

/-- A concrete JSON object `{"a": 1}`. -/
def exJson : JsonObj := .cons "a" (.num 1) .nil

/-- The spec `Response.init` builds for `json=exJson` (content type defaulted
to `application/json`, body the serialized object). -/
def exSpecJson : Spec :=
  BaseResponse.init "GET" (.lit "http://example.com/") .unspecified []
    (.static (.str (Json.dumps (.obj exJson))) 200 none false (some "application/json"))

/-- A second concrete static GET spec (different body) for the given URL. -/
def exSpec2 (u : String) : Spec :=
  BaseResponse.init "GET" (.lit u) .unspecified []
    (.static (.str "world") 200 none false (some "text/plain"))

/-- A session state with one never-fired spec and one logged call, teardown
assertion enabled. -/
def exStateC3 : MockState :=
  { _matches := [exSpec "http://example.com/"]
    _calls := [(exReq, RespOrErr.exn .notImplementedError)]
    passthru_prefixes := []
    assert_all_requests_are_fired := true }

/-! ## Theorems -/

/-! ### Claim C7: `remove` deletes all equal entries -/

theorem specEq_spell (a b : Spec) :
    specEq a b = (a.method == b.method && urlAsString a.url == urlAsString b.url) := by
  unfold specEq
  by_cases h : a.method == b.method
  · simp [h]
  · simp [h]

theorem pyListRemove_filter (l : List Spec) (x : Spec) :
    (pyListRemove l x).filter (fun m => !(specEq m x)) =
      l.filter (fun m => !(specEq m x)) := by
  induction l with
  | nil => rfl
  | cons m rest ih =>
    by_cases h : specEq m x
    · simp [pyListRemove, h, List.filter_cons]
    · simp only [Bool.not_eq_true] at h
      simp [pyListRemove, h, List.filter_cons, ih]

theorem removeWhile_eq_filter (l : List Spec) (x : Spec) :
    removeWhile l x = l.filter fun m => !(specEq m x) := by
  rw [removeWhile]
  by_cases h : (l.any fun m => specEq m x) = true
  · rw [dif_pos h, removeWhile_eq_filter (pyListRemove l x) x, pyListRemove_filter]
  · rw [dif_neg h]
    have h2 : ∀ m ∈ l, specEq m x = false := by
      intro m hm
      by_contra hc
      exact h (List.any_eq_true.mpr ⟨m, hm, by revert hc; cases specEq m x <;> simp⟩)
    symm
    apply List.filter_eq_self.mpr
    intro m hm
    simp [h2 m hm]
termination_by l.length
decreasing_by exact pyListRemove_length_lt l x h

/-- C7: `remove` — given a spec object or a `(method, url)` pair (the latter
constructing a bare default-path key) — leaves exactly the registry entries
not equal to the key, where equality is method equality together with URL
equality as strings, a compiled pattern contributing its source pattern
text. -/
theorem claim_C7 (registry : List Spec) (key : Spec) (method : String) (url : UrlSpec) :
    removeSpec registry key =
      registry.filter (fun m =>
        !(m.method == key.method && urlAsString m.url == urlAsString key.url)) ∧
    removeMethodUrl registry method url =
      registry.filter (fun m =>
        !(m.method == method &&
          urlAsString m.url == urlAsString (ensure_url_default_path url))) := by
  constructor
  · rw [removeSpec, removeWhile_eq_filter]
    apply List.filter_congr
    intro m hm
    rw [specEq_spell]
  · rw [removeMethodUrl, removeWhile_eq_filter]
    apply List.filter_congr
    intro m hm
    rw [specEq_spell]
    rfl

/-! ### Claim C8: `replace` / `upsert` semantics -/

theorem pyIndexAux_some : ∀ (l : List Spec) (x : Spec) (i : Nat),
    pyIndexAux x l = some i →
    (∃ m, l[i]? = some m ∧ specEq m x = true) ∧
    (∀ j, j < i → ∀ m, l[j]? = some m → specEq m x = false)
  | [], x, i, h => by simp [pyIndexAux] at h
  | m :: rest, x, i, h => by
    by_cases hm : specEq m x
    · simp [pyIndexAux, hm] at h
      subst h
      exact ⟨⟨m, by simp, hm⟩, fun j hj => by omega⟩
    · have hmf : specEq m x = false := by revert hm; cases specEq m x <;> simp
      simp [pyIndexAux, hmf] at h
      obtain ⟨i0, h0, hi⟩ := h
      obtain ⟨⟨m0, hg, he⟩, hb⟩ := pyIndexAux_some rest x i0 h0
      subst hi
      refine ⟨⟨m0, by simpa using hg, he⟩, ?_⟩
      intro j hj mj hgj
      cases j with
      | zero =>
        simp at hgj
        exact hgj ▸ hmf
      | succ j0 =>
        exact hb j0 (by omega) mj (by simpa using hgj)

theorem pyIndexAux_none : ∀ (l : List Spec) (x : Spec),
    pyIndexAux x l = none → ∀ m ∈ l, specEq m x = false
  | [], _, _ => by simp
  | m :: rest, x, h => by
    by_cases hm : specEq m x
    · simp [pyIndexAux, hm] at h
    · have hmf : specEq m x = false := by revert hm; cases specEq m x <;> simp
      have hr : pyIndexAux x rest = none := by
        have h2 := h
        simp [pyIndexAux, hmf] at h2
        exact h2
      intro m2 hm2
      rcases List.mem_cons.mp hm2 with h2 | h2
      · exact h2 ▸ hmf
      · exact pyIndexAux_none rest x hr m2 h2

/-- C8: `replace` overwrites the first entry equal (by `BaseResponse.__eq__`)
to the new spec in place — the equal entry sits at the replaced index, every
strictly earlier entry is unequal, the index keeps the new spec and every
other index is untouched — and raises `ValueError` when no equal entry
exists; `upsert` behaves as `replace` when an equal entry exists and as `add`
(append) otherwise. -/
theorem claim_C8 (registry : List Spec) (response : Spec) :
    (∀ i, pyIndexAux response registry = some i →
      (∃ m, registry[i]? = some m ∧ specEq m response = true) ∧
      (∀ j, j < i → ∀ m, registry[j]? = some m → specEq m response = false) ∧
      replaceSpec registry response = .ok (registry.set i response) ∧
      (registry.set i response)[i]? = some response ∧
      (∀ j, j ≠ i → (registry.set i response)[j]? = registry[j]?) ∧
      upsertSpec registry response = registry.set i response) ∧
    (pyIndexAux response registry = none →
      (∀ m ∈ registry, specEq m response = false) ∧
      (∃ msg, replaceSpec registry response = .error (.valueError msg)) ∧
      upsertSpec registry response = registry ++ [response]) := by
  constructor
  · intro i hi
    obtain ⟨⟨m, hg, he⟩, hb⟩ := pyIndexAux_some registry response i hi
    have hlt : i < registry.length := (List.getElem?_eq_some.mp hg).1
    have hrepl : replaceSpec registry response = .ok (registry.set i response) := by
      simp [replaceSpec, hi]
    refine ⟨⟨m, hg, he⟩, hb, hrepl, ?_, ?_, ?_⟩
    · rw [List.getElem?_set_self]
      simp [hlt]
    · intro j hj
      rw [List.getElem?_set_ne]
      omega
    · simp [upsertSpec, hrepl]
  · intro hn
    refine ⟨pyIndexAux_none registry response hn, ?_, ?_⟩
    · exact ⟨"Response is not registered for URL " ++ response.url.text,
        by simp [replaceSpec, hn]⟩
    · simp [upsertSpec, replaceSpec, hn, addSpec]

/-- Witness for C8: both arms at concrete registries — replacing the sole
(equal) entry of a one-spec registry, and upserting into a registry whose
only entry is unequal. -/
theorem claim_C8_witness :
    replaceSpec [exSpec "http://example.com/"] (exSpec "http://example.com") =
      .ok [exSpec "http://example.com"] ∧
    upsertSpec [exSpec "http://other.example.com/"] (exSpec "http://example.com") =
      [exSpec "http://other.example.com/", exSpec "http://example.com"] := by
  constructor
  · exact ((claim_C8 [exSpec "http://example.com/"] (exSpec "http://example.com")).1
      0 (by decide)).2.2.1
  · exact ((claim_C8 [exSpec "http://other.example.com/"]
      (exSpec "http://example.com")).2 (by decide)).2.2

/-! ### Claim C3: scoped-session teardown (corrected) -/

/-- Counterexample to C3 as stated: on a clean exit with the teardown
assertion enabled and one never-fired spec, `__exit__` raises from `stop`
before ever reaching `reset`, so the Registry and the CallLog are NOT
cleared — "always clears" fails on this path. -/
theorem claim_C3_counterexample :
    (exitCtx exStateC3 false).1.isSome = true ∧
    (exitCtx exStateC3 false).2._matches = [exSpec "http://example.com/"] ∧
    (exitCtx exStateC3 false).2._calls = [(exReq, RespOrErr.exn .notImplementedError)] :=
  ⟨rfl, rfl, rfl⟩

/-- C3 amended: exiting the scope clears the Registry and the CallLog
whenever the teardown assertion does not itself raise — in particular always
when the scope body raised, the assertion being skipped then — and when
`assert_all_requests_are_fired` is enabled, a spec with `call_count == 0`
causes an assertion error on clean exit (in which case the reset is skipped
and Registry and CallLog are left untouched) but no such error when the
scope exited via another exception. -/
theorem claim_C3_amended (st : MockState) :
    exitCtx st true = (none, resetState st) ∧
    (resetState st)._matches = [] ∧ (resetState st)._calls = [] ∧
    (st.assert_all_requests_are_fired = true →
      (∃ m ∈ st._matches, m.call_count = 0) →
      ∃ msg, exitCtx st false = (some (.assertionFailed msg), st)) ∧
    ((st.assert_all_requests_are_fired = false ∨ ∀ m ∈ st._matches, m.call_count ≠ 0) →
      exitCtx st false = (none, resetState st)) := by
  refine ⟨?_, rfl, rfl, ?_, ?_⟩
  · have h : stopCheck st false = none := by
      unfold stopCheck
      cases st.assert_all_requests_are_fired <;> simp
    simp [exitCtx, h]
  · intro ha ⟨m, hm, hc⟩
    have hmem : m ∈ st._matches.filter (fun m => m.call_count == 0) :=
      List.mem_filter.mpr ⟨hm, by simp [hc]⟩
    have hne : st._matches.filter (fun m => m.call_count == 0) ≠ [] :=
      List.ne_nil_of_mem hmem
    have hstop : stopCheck st true =
        some (.assertionFailed ("Not all requests have been executed " ++
          reprPairs (st._matches.filter fun m => m.call_count == 0))) := by
      unfold stopCheck
      simp [ha, List.isEmpty_iff, hne]
    refine ⟨"Not all requests have been executed " ++
      reprPairs (st._matches.filter fun m => m.call_count == 0), ?_⟩
    simp [exitCtx, hstop]
  · intro h
    have hstop : stopCheck st true = none := by
      unfold stopCheck
      rcases h with h | h
      · simp [h]
      · have : st._matches.filter (fun m => m.call_count == 0) = [] := by
          apply List.filter_eq_nil_iff.mpr
          intro m hm
          simp [h m hm]
        simp [this]
    simp [exitCtx, hstop]

/-- Witness for the amended C3: on the concrete one-unfired-spec state, an
errored scope still resets, and a clean exit raises with the state left
untouched. -/
theorem claim_C3_amended_witness :
    exitCtx exStateC3 true = (none, resetState exStateC3) ∧
    (∃ msg, exitCtx exStateC3 false = (some (.assertionFailed msg), exStateC3)) := by
  refine ⟨(claim_C3_amended exStateC3).1, ?_⟩
  exact (claim_C3_amended exStateC3).2.2.2.1 rfl
    ⟨exSpec "http://example.com/", by simp [exStateC3], rfl⟩

/-! ### Claim C4: request query-parameter collapsing (corrected) -/

/-- Counterexample to C4 as stated: in `?a=1&b=2&a=3` the key `a` occurs more
than once, yet because `itertools.groupby` only groups consecutive pairs the
dispatcher maps `a` to the single value `"3"` (its last run), not to the
ordered list `["1", "3"]` of all its values. -/
theorem claim_C4_counterexample :
    parse_qsl (pyUrlparse (path_url "http://x/?a=1&b=2&a=3")).query =
      [("a", "1"), ("b", "2"), ("a", "3")] ∧
    dictGet (_parse_request_params (path_url "http://x/?a=1&b=2&a=3")) "a" =
      some (.single "3") ∧
    some (ParamVal.single "3") ≠ some (ParamVal.multi ["1", "3"]) :=
  ⟨rfl, rfl, by decide⟩

theorem dictGet_dictSet (d : List (String × ParamVal)) (k1 k : String) (v : ParamVal) :
    dictGet (dictSet d k1 v) k = if k1 == k then some v else dictGet d k := by
  induction d with
  | nil =>
    by_cases h : k1 == k <;> simp [dictSet, dictGet, h]
  | cons p rest ih =>
    obtain ⟨k2, v2⟩ := p
    by_cases h12 : k2 == k1
    · have he : k2 = k1 := by simpa using h12
      subst he
      by_cases hk : k2 == k <;> simp [dictSet, dictGet, h12, hk]
    · by_cases hk2 : k2 == k
      · have he : k2 = k := by simpa using hk2
        subst he
        have hk1 : (k1 == k2) = false := by
          have hne : ¬ k1 = k2 := fun hh => h12 (by simp [hh])
          simpa using hne
        simp [dictSet, dictGet, h12, hk2, hk1]
      · simp [dictSet, dictGet, h12, hk2, ih]

theorem foldl_dictSet_get :
    ∀ (runs : List (String × List String)) (d : List (String × ParamVal)) (k : String),
    dictGet (runs.foldl (fun d kv => dictSet d kv.1 (runValue kv.2)) d) k =
      (match runs.reverse.find? (fun r => r.1 == k) with
       | some r => some (runValue r.2)
       | none => dictGet d k)
  | [], d, k => by simp
  | r :: rs, d, k => by
    rw [List.foldl_cons, foldl_dictSet_get rs (dictSet d r.1 (runValue r.2)) k]
    rw [List.reverse_cons, List.find?_append]
    cases hfind : rs.reverse.find? (fun r => r.1 == k) with
    | some e => simp [Option.or]
    | none =>
      by_cases hk : r.1 == k
      · simp [Option.or, List.find?, hk, dictGet_dictSet]
      · simp [Option.or, List.find?, hk, dictGet_dictSet]

/-- C4 amended: the dispatcher-attached params mapping sends every key to the
collapsed value of its LAST maximal run of consecutive query pairs sharing
that key — the run's single value when the run has length one, the ordered
list of the run's values otherwise.  (In particular, when all of a key's
occurrences are adjacent this is the claim's collapsing; interleaved
occurrences are collapsed per run with later runs overwriting earlier
ones.) -/
theorem claim_C4_amended (url : String) (k : String) :
    dictGet (_parse_request_params url) k =
      ((groupRuns (parse_qsl (pyUrlparse url).query)).reverse.find?
        (fun r => r.1 == k)).map (fun r => runValue r.2) := by
  unfold _parse_request_params
  rw [foldl_dictSet_get]
  cases hfind : (groupRuns (parse_qsl (pyUrlparse url).query)).reverse.find?
      (fun r => r.1 == k) with
  | some e => simp
  | none => simp [dictGet]

/-! ### `_find_match` scan lemmas -/

theorem findMatchGo_nil (request : Request) (orig : List Spec) (i : Nat)
    (found : Option (Nat × Spec)) (acc : List String) :
    findMatchGo request orig [] i found acc =
      { found_match := found.map Prod.snd, found_idx := found.map Prod.fst
        registry := orig, reasons := acc } := rfl

theorem findMatchGo_miss (request : Request) (orig : List Spec) (m : Spec)
    (rest : List Spec) (i : Nat) (found : Option (Nat × Spec)) (acc : List String)
    (hm : (m.matches request).1 = false) :
    findMatchGo request orig (m :: rest) i found acc =
      findMatchGo request orig rest (i + 1) found (acc ++ [(m.matches request).2]) := by
  simp [findMatchGo, hm]

theorem findMatchGo_hit_none (request : Request) (orig : List Spec) (m : Spec)
    (rest : List Spec) (i : Nat) (acc : List String)
    (hm : (m.matches request).1 = true) :
    findMatchGo request orig (m :: rest) i none acc =
      findMatchGo request orig rest (i + 1) (some (i, m)) acc := by
  simp [findMatchGo, hm]

theorem findMatchGo_hit_some (request : Request) (orig : List Spec) (m : Spec)
    (rest : List Spec) (i fi : Nat) (fm : Spec) (acc : List String)
    (hm : (m.matches request).1 = true) :
    findMatchGo request orig (m :: rest) i (some (fi, fm)) acc =
      { found_match := some fm, found_idx := none
        registry := orig.eraseIdx fi, reasons := acc } := by
  simp [findMatchGo, hm]

theorem findMatchGo_skip (request : Request) (orig : List Spec) :
    ∀ (l rest : List Spec) (i : Nat) (found : Option (Nat × Spec)) (acc : List String),
    (∀ m ∈ l, (m.matches request).1 = false) →
    findMatchGo request orig (l ++ rest) i found acc =
      findMatchGo request orig rest (i + l.length) found
        (acc ++ l.map fun m => (m.matches request).2)
  | [], rest, i, found, acc, h => by simp
  | m :: l, rest, i, found, acc, h => by
    have hm : (m.matches request).1 = false := h m (by simp)
    have hl : ∀ m2 ∈ l, (m2.matches request).1 = false := fun m2 h2 => h m2 (by simp [h2])
    rw [List.cons_append, findMatchGo_miss request orig m (l ++ rest) i found acc hm]
    rw [findMatchGo_skip request orig l rest (i + 1) found
      (acc ++ [(m.matches request).2]) hl]
    have hlen : i + 1 + l.length = i + (m :: l).length := by simp; omega
    rw [hlen]
    simp

theorem eraseIdx_at_append : ∀ (l₁ : List Spec) (a : Spec) (l₂ : List Spec),
    (l₁ ++ a :: l₂).eraseIdx l₁.length = l₁ ++ l₂
  | [], a, l₂ => by simp
  | b :: l₁, a, l₂ => by simp [List.eraseIdx, eraseIdx_at_append l₁ a l₂]

theorem modify_at_append (f : Spec → Spec) : ∀ (l₁ : List Spec) (a : Spec) (l₂ : List Spec),
    listModify f l₁.length (l₁ ++ a :: l₂) = l₁ ++ f a :: l₂
  | [], a, l₂ => by simp [listModify]
  | b :: l₁, a, l₂ => by simp [listModify, modify_at_append f l₁ a l₂]

/-- When nothing matches, `_find_match` returns no match, leaves the registry
untouched and collects one failure reason per spec in order. -/
theorem find_match_none (request : Request) (registry : List Spec)
    (h : ∀ m ∈ registry, (m.matches request).1 = false) :
    _find_match registry request =
      { found_match := none, found_idx := none, registry := registry
        reasons := registry.map fun m => (m.matches request).2 } := by
  unfold _find_match
  have h2 := findMatchGo_skip request registry registry [] 0 none [] h
  rw [List.append_nil] at h2
  rw [h2, findMatchGo_nil]
  simp

/-- When exactly one spec matches, `_find_match` returns it with its index
and leaves the registry untouched. -/
theorem find_match_single (request : Request) (l₁ l₂ : List Spec) (S : Spec)
    (hS : (S.matches request).1 = true)
    (h1 : ∀ m ∈ l₁, (m.matches request).1 = false)
    (h2 : ∀ m ∈ l₂, (m.matches request).1 = false) :
    _find_match (l₁ ++ S :: l₂) request =
      { found_match := some S, found_idx := some l₁.length
        registry := l₁ ++ S :: l₂
        reasons := (l₁.map fun m => (m.matches request).2) ++
          (l₂.map fun m => (m.matches request).2) } := by
  unfold _find_match
  rw [findMatchGo_skip request _ l₁ (S :: l₂) 0 none [] h1]
  rw [findMatchGo_hit_none request _ S l₂ (0 + l₁.length) _ hS]
  have h3 := findMatchGo_skip request (l₁ ++ S :: l₂) l₂ [] (0 + l₁.length + 1)
    (some (0 + l₁.length, S)) ([] ++ l₁.map fun m => (m.matches request).2) h2
  rw [List.append_nil] at h3
  rw [h3, findMatchGo_nil]
  simp

/-- When a second match is met, `_find_match` pops the first match (by its
index) out of the registry and returns it with the reasons collected so
far. -/
theorem find_match_two (request : Request) (l₁ l₂ l₃ : List Spec) (S1 S2 : Spec)
    (h1 : (S1.matches request).1 = true)
    (h2 : (S2.matches request).1 = true)
    (hl₁ : ∀ m ∈ l₁, (m.matches request).1 = false)
    (hl₂ : ∀ m ∈ l₂, (m.matches request).1 = false) :
    _find_match (l₁ ++ S1 :: (l₂ ++ S2 :: l₃)) request =
      { found_match := some S1, found_idx := none
        registry := l₁ ++ (l₂ ++ S2 :: l₃)
        reasons := (l₁.map fun m => (m.matches request).2) ++
          (l₂.map fun m => (m.matches request).2) } := by
  unfold _find_match
  rw [findMatchGo_skip request _ l₁ (S1 :: (l₂ ++ S2 :: l₃)) 0 none [] hl₁]
  rw [findMatchGo_hit_none request _ S1 (l₂ ++ S2 :: l₃) (0 + l₁.length) _ h1]
  rw [findMatchGo_skip request _ l₂ (S2 :: l₃) (0 + l₁.length + 1)
    (some (0 + l₁.length, S1)) _ hl₂]
  rw [findMatchGo_hit_some request _ S2 l₃ _ (0 + l₁.length) S1 _ h2]
  have he : (l₁ ++ S1 :: (l₂ ++ S2 :: l₃)).eraseIdx (0 + l₁.length) = l₁ ++ (l₂ ++ S2 :: l₃) := by
    rw [Nat.zero_add]
    exact eraseIdx_at_append l₁ S1 (l₂ ++ S2 :: l₃)
  rw [he]
  simp

/-! ### Dispatch step lemmas -/

/-- One dispatch against a registry whose sole match is `S` at position
`l₁.length`: `S` answers, stays in place with `call_count` one higher, and
exactly one call is logged. -/
theorem on_request_single (st : MockState) (request : Request)
    (l₁ l₂ : List Spec) (S : Spec)
    (hreg : st._matches = l₁ ++ S :: l₂)
    (hS : (S.matches request).1 = true)
    (h1 : ∀ m ∈ l₁, (m.matches request).1 = false)
    (h2 : ∀ m ∈ l₂, (m.matches request).1 = false) :
    _on_request st request =
      (answerFor S (withParams request),
       { st with
         _matches := l₁ ++ { S with call_count := S.call_count + 1 } :: l₂
         _calls := st._calls ++ [(withParams request, logFor S (withParams request))] }) := by
  unfold _on_request
  rw [hreg, find_match_single request l₁ l₂ S hS h1 h2]
  cases hresp : S.get_response (withParams request) with
  | error e => simp [answerFor, logFor, hresp, incAt, modify_at_append, hreg]
  | ok r => simp [answerFor, logFor, hresp, incAt, modify_at_append, hreg]

/-- One dispatch meeting two matches `S1` (first) and `S2`: `S1` answers and
is popped from the registry; one call is logged. -/
theorem on_request_two (st : MockState) (request : Request)
    (l₁ l₂ l₃ : List Spec) (S1 S2 : Spec)
    (hreg : st._matches = l₁ ++ S1 :: (l₂ ++ S2 :: l₃))
    (h1 : (S1.matches request).1 = true)
    (h2 : (S2.matches request).1 = true)
    (hl₁ : ∀ m ∈ l₁, (m.matches request).1 = false)
    (hl₂ : ∀ m ∈ l₂, (m.matches request).1 = false) :
    _on_request st request =
      (answerFor S1 (withParams request),
       { st with
         _matches := l₁ ++ (l₂ ++ S2 :: l₃)
         _calls := st._calls ++ [(withParams request, logFor S1 (withParams request))] }) := by
  unfold _on_request
  rw [hreg, find_match_two request l₁ l₂ l₃ S1 S2 h1 h2 hl₁ hl₂]
  cases hresp : S1.get_response (withParams request) with
  | error e => simp [answerFor, logFor, hresp, incAt, hreg]
  | ok r => simp [answerFor, logFor, hresp, incAt, hreg]

/-! ### Claim C2: single-match idempotence -/

/-- C2: against a registry whose only matching spec is `S`, any number of
dispatches never removes `S` and raises its `call_count` by exactly one per
dispatch. -/
theorem claim_C2 (l₁ l₂ : List Spec) (S : Spec) (request : Request) (st : MockState)
    (hreg : st._matches = l₁ ++ S :: l₂)
    (hS : (S.matches request).1 = true)
    (h1 : ∀ m ∈ l₁, (m.matches request).1 = false)
    (h2 : ∀ m ∈ l₂, (m.matches request).1 = false) :
    ∀ n, (dispatchN n st request)._matches =
      l₁ ++ { S with call_count := S.call_count + n } :: l₂ := by
  intro n
  induction n generalizing st S with
  | zero => simpa using hreg
  | succ n ih =>
    show (dispatchN n (_on_request st request).2 request)._matches = _
    rw [on_request_single st request l₁ l₂ S hreg hS h1 h2]
    rw [ih { S with call_count := S.call_count + 1 } _ rfl hS]
    have : S.call_count + 1 + n = S.call_count + (n + 1) := by omega
    rw [this]

/-- Witness for C2: three dispatches against a one-spec registry leave that
spec in place with `call_count = 3`. -/
theorem claim_C2_witness :
    (dispatchN 3 (exState [exSpec "http://example.com/"]) exReq)._matches =
      [{ exSpec "http://example.com/" with call_count := 3 }] := by
  have h := claim_C2 [] [] (exSpec "http://example.com/") exReq
    (exState [exSpec "http://example.com/"]) rfl (by decide) (by simp) (by simp) 3
  simpa using h

/-! ### Claim C1: one-shot consumption on multiple matches -/

/-- C1: with both `S1` and `S2` (in that order) matching and nothing else
matching, the first dispatch answers with `S1` and removes it from the
registry; the second dispatch answers with `S2`, which remains registered
(with its `call_count` bumped). -/
theorem claim_C1 (l₁ l₂ l₃ : List Spec) (S1 S2 : Spec) (request : Request) (st : MockState)
    (hreg : st._matches = l₁ ++ S1 :: (l₂ ++ S2 :: l₃))
    (h1 : (S1.matches request).1 = true)
    (h2 : (S2.matches request).1 = true)
    (hrest : ∀ m ∈ l₁ ++ l₂ ++ l₃, (m.matches request).1 = false) :
    (_on_request st request).1 = answerFor S1 (withParams request) ∧
    (_on_request st request).2._matches = l₁ ++ (l₂ ++ S2 :: l₃) ∧
    (_on_request (_on_request st request).2 request).1 = answerFor S2 (withParams request) ∧
    (_on_request (_on_request st request).2 request).2._matches =
      l₁ ++ (l₂ ++ { S2 with call_count := S2.call_count + 1 } :: l₃) := by
  have hl₁ : ∀ m ∈ l₁, (m.matches request).1 = false := fun m hm =>
    hrest m (by simp [hm])
  have hl₂ : ∀ m ∈ l₂, (m.matches request).1 = false := fun m hm =>
    hrest m (by simp [hm])
  have hl₃ : ∀ m ∈ l₃, (m.matches request).1 = false := fun m hm =>
    hrest m (by simp [hm])
  have hstep1 := on_request_two st request l₁ l₂ l₃ S1 S2 hreg h1 h2 hl₁ hl₂
  have hreg2 : (_on_request st request).2._matches = (l₁ ++ l₂) ++ S2 :: l₃ := by
    rw [hstep1]
    simp
  have hl₁₂ : ∀ m ∈ l₁ ++ l₂, (m.matches request).1 = false := by
    intro m hm
    rcases List.mem_append.mp hm with h | h
    · exact hl₁ m h
    · exact hl₂ m h
  have hstep2 := on_request_single (_on_request st request).2 request
    (l₁ ++ l₂) l₃ S2 hreg2 h2 hl₁₂ hl₃
  refine ⟨by rw [hstep1], by rw [hstep1], by rw [hstep2], ?_⟩
  rw [hstep2]
  simp

/-- Witness for C1: two matching specs for the same URL; the first dispatch
answers with the first and drops it, the second answers with the second,
which stays registered. -/
theorem claim_C1_witness :
    (_on_request (exState [exSpec "http://example.com/", exSpec2 "http://example.com/"]) exReq).1 =
      answerFor (exSpec "http://example.com/") (withParams exReq) ∧
    (_on_request (_on_request
        (exState [exSpec "http://example.com/", exSpec2 "http://example.com/"]) exReq).2
        exReq).2._matches =
      [{ exSpec2 "http://example.com/" with call_count := 1 }] := by
  have h := claim_C1 [] [] [] (exSpec "http://example.com/") (exSpec2 "http://example.com/")
    exReq (exState [exSpec "http://example.com/", exSpec2 "http://example.com/"])
    rfl (by decide) (by decide) (by simp)
  exact ⟨h.1, by simpa using h.2.2.2⟩

/-! ### Claim C5: no-match dispatch diagnostics -/

theorem strConcat_cons (p : String) (ps : List String) :
    strConcat (p :: ps) = p ++ strConcat ps := rfl

/-- An infix of `t` is an infix of `s ++ t`. -/
theorem infix_append_left (s : String) {l : List Char} {t : String}
    (h : l <:+: t.data) : l <:+: (s ++ t).data := by
  obtain ⟨pre, post, hh⟩ := h
  refine ⟨s.data ++ pre, post, ?_⟩
  rw [String.data_append, ← hh]
  simp

theorem mem_infix_strConcat : ∀ (ps : List String) (s : String), s ∈ ps →
    s.data <:+: (strConcat ps).data
  | [], s, h => by simp at h
  | p :: ps, s, h => by
    rcases List.mem_cons.mp h with h | h
    · subst h
      refine ⟨[], (strConcat ps).data, ?_⟩
      simp [strConcat_cons, String.data_append]
    · obtain ⟨pre, post, hh⟩ := mem_infix_strConcat ps s h
      refine ⟨p.data ++ pre, post, ?_⟩
      rw [strConcat_cons, String.data_append, ← hh]
      simp

theorem zip_map_self {α β : Type} (f : α → β) : ∀ (l : List α),
    l.zip (l.map f) = l.map fun a => (a, f a)
  | [] => rfl
  | a :: l => by simp [zip_map_self f l]

/-- The no-match message, when the reasons are exactly one per spec, is the
request line followed by one formatted line per spec. -/
theorem noMatchMsg_map (request2 : Request) (l : List Spec) (f : Spec → String) :
    noMatchMsg request2 l (l.map f) =
      "Connection refused by Responses - the call doesn\x27t match any registered mock.\n\nRequest: \n- "
        ++ request2.method ++ " " ++ request2.url ++ "\n\nAvailable matches:\n"
        ++ strConcat (l.map fun m => "- " ++ m.method ++ " " ++ m.url.text ++ " " ++ f m ++ "\n") := by
  unfold noMatchMsg
  rw [zip_map_self, List.map_map]
  rfl

/-- C5: dispatching a request matching no spec and no passthrough prefix
raises a `ConnectionError` and appends the `(request, error)` pair to the
call log first; the message contains the request method, the request URL,
and every registered spec's individual failure reason. -/
theorem claim_C5 (st : MockState) (request : Request)
    (hnm : ∀ m ∈ st._matches, (m.matches request).1 = false)
    (hpt : ∀ p ∈ st.passthru_prefixes, passthruHit p request.url = false) :
    ∃ msg,
      _on_request st request =
        (.raised (.connectionError msg),
         { st with _calls := st._calls ++
             [(withParams request, .exn (.connectionError msg))] }) ∧
      request.method.data <:+: msg.data ∧
      request.url.data <:+: msg.data ∧
      ∀ m ∈ st._matches, ((m.matches request).2).data <:+: msg.data := by
  refine ⟨noMatchMsg (withParams request) st._matches
    (st._matches.map fun m => (m.matches request).2), ?_, ?_, ?_, ?_⟩
  · unfold _on_request
    rw [find_match_none request st._matches hnm]
    have hany : (st.passthru_prefixes.any fun p => passthruHit p request.url) = false := by
      apply List.any_eq_false.mpr
      intro p hp
      simp [hpt p hp]
    simp [hany]
  · unfold noMatchMsg
    refine ⟨("Connection refused by Responses - the call doesn\x27t match any registered mock.\n\nRequest: \n- " : String).data,
      (" " ++ request.url ++ "\n\nAvailable matches:\n" ++
        strConcat ((st._matches.zip (st._matches.map fun m => (m.matches request).2)).map
          fun p => "- " ++ p.1.method ++ " " ++ p.1.url.text ++ " " ++ p.2 ++ "\n")).data, ?_⟩
    simp [String.data_append, withParams]
  · unfold noMatchMsg
    refine ⟨("Connection refused by Responses - the call doesn\x27t match any registered mock.\n\nRequest: \n- "
        ++ request.method ++ " " : String).data,
      ("\n\nAvailable matches:\n" ++
        strConcat ((st._matches.zip (st._matches.map fun m => (m.matches request).2)).map
          fun p => "- " ++ p.1.method ++ " " ++ p.1.url.text ++ " " ++ p.2 ++ "\n")).data, ?_⟩
    simp [String.data_append, withParams]
  · intro m hm
    unfold noMatchMsg
    rw [zip_map_self, List.map_map]
    have hline : ("- " ++ m.method ++ " " ++ m.url.text ++ " " ++ (m.matches request).2 ++ "\n")
        ∈ (st._matches.map fun m2 =>
            "- " ++ m2.method ++ " " ++ m2.url.text ++ " " ++ (m2.matches request).2 ++ "\n") :=
      List.mem_map_of_mem _ hm
    have h1 : ((m.matches request).2).data <:+:
        ("- " ++ m.method ++ " " ++ m.url.text ++ " " ++ (m.matches request).2 ++ "\n").data := by
      refine ⟨("- " ++ m.method ++ " " ++ m.url.text ++ " " : String).data, ("\n" : String).data, ?_⟩
      simp [String.data_append]
    exact infix_append_left _ (h1.trans (mem_infix_strConcat _ _ hline))

/-- Witness for C5: one registered non-matching spec, no passthrough. -/
theorem claim_C5_witness :
    ∃ msg,
      _on_request (exState [exSpec "http://other.example.com/"]) exReq =
        (.raised (.connectionError msg),
         { exState [exSpec "http://other.example.com/"] with _calls :=
             (exState [exSpec "http://other.example.com/"])._calls ++
               [(withParams exReq, .exn (.connectionError msg))] }) ∧
      exReq.method.data <:+: msg.data ∧
      exReq.url.data <:+: msg.data ∧
      ∀ m ∈ (exState [exSpec "http://other.example.com/"])._matches,
        ((m.matches exReq).2).data <:+: msg.data :=
  claim_C5 (exState [exSpec "http://other.example.com/"]) exReq (by decide) (by simp [exState])

/-! ### Claim C10: CallLog coverage and passthrough -/

theorem findMatchGo_none_reg (request : Request) (orig : List Spec) :
    ∀ (l : List Spec) (i : Nat) (found : Option (Nat × Spec)) (acc : List String),
    (findMatchGo request orig l i found acc).found_match = none →
    (findMatchGo request orig l i found acc).registry = orig
  | [], i, found, acc, h => rfl
  | m :: l, i, found, acc, h => by
    by_cases hm : (m.matches request).1 = true
    · cases found with
      | none =>
        rw [findMatchGo_hit_none request orig m l i acc hm] at h ⊢
        exact findMatchGo_none_reg request orig l (i + 1) (some (i, m)) acc h
      | some p =>
        obtain ⟨fi, fm⟩ := p
        rw [findMatchGo_hit_some request orig m l i fi fm acc hm] at h
        simp at h
    · have hmf : (m.matches request).1 = false := by
        revert hm; cases (m.matches request).1 <;> simp
      rw [findMatchGo_miss request orig m l i found acc hmf] at h ⊢
      exact findMatchGo_none_reg request orig l (i + 1) found _ h

/-- When `_find_match` finds nothing, it has not touched the registry. -/
theorem find_match_none_reg (registry : List Spec) (request : Request)
    (h : (_find_match registry request).found_match = none) :
    (_find_match registry request).registry = registry :=
  findMatchGo_none_reg request registry registry 0 none [] h

/-- C10: a dispatch is a passthrough exactly when no spec matches and some
passthrough prefix accepts the URL; a passthrough leaves the whole session
state untouched (and in particular appends nothing to the call log), while
every other completed dispatch — matched response, matched exception, or
no-match error — appends exactly one record to the call log (the existing
log staying a prefix). -/
theorem claim_C10 (st : MockState) (request : Request) :
    ((_on_request st request).1 = .passthru ↔
      ((_find_match st._matches request).found_match = none ∧
        (st.passthru_prefixes.any fun p => passthruHit p request.url) = true)) ∧
    ((_on_request st request).1 = .passthru → (_on_request st request).2 = st) ∧
    ((_on_request st request).1 ≠ .passthru →
      (_on_request st request).2._calls.length = st._calls.length + 1 ∧
      st._calls <+: (_on_request st request).2._calls) := by
  cases hf : (_find_match st._matches request).found_match with
  | none =>
    by_cases hp : (st.passthru_prefixes.any fun p => passthruHit p request.url) = true
    · have hreg := find_match_none_reg st._matches request hf
      refine ⟨by simp [_on_request, hf, hp], ?_, ?_⟩
      · intro _
        simp [_on_request, hf, hp, hreg]
      · intro hne
        exact absurd (show (_on_request st request).1 = .passthru by
          simp [_on_request, hf, hp]) hne
    · have hp2 : (st.passthru_prefixes.any fun p => passthruHit p request.url) = false := by
        revert hp; cases (st.passthru_prefixes.any fun p => passthruHit p request.url) <;> simp
      refine ⟨by simp [_on_request, hf, hp2], by simp [_on_request, hf, hp2], ?_⟩
      intro _
      constructor
      · simp [_on_request, hf, hp2]
      · simp [_on_request, hf, hp2, List.prefix_append]
  | some fm =>
    cases hresp : fm.get_response (withParams request) with
    | error e =>
      refine ⟨by simp [_on_request, hf, hresp], by simp [_on_request, hf, hresp], ?_⟩
      intro _
      constructor
      · simp [_on_request, hf, hresp]
      · simp [_on_request, hf, hresp, List.prefix_append]
    | ok r =>
      refine ⟨by simp [_on_request, hf, hresp], by simp [_on_request, hf, hresp], ?_⟩
      intro _
      constructor
      · simp [_on_request, hf, hresp]
      · simp [_on_request, hf, hresp, List.prefix_append]

/-! ### Claim C6: strict query-string matching -/

/-- Two pair lists have equal Python-sorted forms exactly when they are equal
as multisets. -/
theorem pySorted_eq_iff (l₁ l₂ : List (String × String)) :
    pySorted l₁ = pySorted l₂ ↔
      (l₁ : Multiset (String × String)) = (l₂ : Multiset (String × String)) := by
  rw [Multiset.coe_eq_coe]
  constructor
  · intro h
    have h1 : l₁.Perm (pySorted l₁) := (List.perm_insertionSort qslR l₁).symm
    rw [h] at h1
    exact h1.trans (List.perm_insertionSort qslR l₂)
  · intro h
    exact List.eq_of_perm_of_sorted
      ((List.perm_insertionSort qslR l₁).trans (h.trans (List.perm_insertionSort qslR l₂).symm))
      (List.sorted_insertionSort qslR l₁)
      (List.sorted_insertionSort qslR l₂)

/-- C6: for a literal ASCII spec URL under strict query matching, a request
URL matches iff the parsed `(scheme, netloc, path)` triples agree exactly and
the query parameters agree as an order-independent multiset of key/value
pairs; in particular the spec `http://x/?a=1&b=2` matches
`http://x/?b=2&a=1` but not `http://x/?a=1`. -/
theorem claim_C6 :
    (∀ (specUrl requestUrl : String), _has_unicode specUrl = false →
      (_url_matches (.lit specUrl) requestUrl true = true ↔
        ((pyUrlparse (parse_url_norm specUrl)).first3 = (pyUrlparse requestUrl).first3 ∧
          (parse_qsl (pyUrlparse (parse_url_norm specUrl)).query :
              Multiset (String × String)) =
            (parse_qsl (pyUrlparse requestUrl).query : Multiset (String × String))))) ∧
    _url_matches (.lit "http://x/?a=1&b=2") "http://x/?b=2&a=1" true = true ∧
    _url_matches (.lit "http://x/?a=1&b=2") "http://x/?a=1" true = false := by
  refine ⟨?_, rfl, rfl⟩
  intro specUrl requestUrl hu
  unfold _url_matches
  simp only [hu, Bool.false_eq_true, if_false, if_true]
  unfold _url_matches_strict
  by_cases h3 : (pyUrlparse (parse_url_norm specUrl)).first3 = (pyUrlparse requestUrl).first3
  · simp only [h3, ne_eq, not_true_eq_false, if_false, beq_iff_eq, pySorted_eq_iff]
    simp [h3]
  · simp [h3]

/-- Witness for C6: the order-independence instance from the claim, with the
ASCII hypothesis discharged concretely. -/
theorem claim_C6_witness :
    _has_unicode "http://x/?a=1&b=2" = false ∧
    (_url_matches (.lit "http://x/?a=1&b=2") "http://x/?b=2&a=1" true = true ↔
      ((pyUrlparse (parse_url_norm "http://x/?a=1&b=2")).first3 =
          (pyUrlparse "http://x/?b=2&a=1").first3 ∧
        (parse_qsl (pyUrlparse (parse_url_norm "http://x/?a=1&b=2")).query :
            Multiset (String × String)) =
          (parse_qsl (pyUrlparse "http://x/?b=2&a=1").query : Multiset (String × String)))) :=
  ⟨rfl, claim_C6.1 "http://x/?a=1&b=2" "http://x/?b=2&a=1" rfl⟩

/-! ### JSON round-trip: digits -/

theorem digitChar_toNat : ∀ k, k < 10 → (digitChar k).toNat = 48 + k := by decide

theorem digitChar_isDigit : ∀ k, k < 10 → isDigitCh (digitChar k) = true := by decide

theorem natDigitsAux_all : ∀ (fuel n : Nat), (natDigitsAux fuel n).all isDigitCh = true
  | 0, n => rfl
  | fuel + 1, n => by
    by_cases h : n < 10
    · simp [natDigitsAux, h, digitChar_isDigit n h]
    · have h10 : n % 10 < 10 := Nat.mod_lt n (by omega)
      simp [natDigitsAux, h, natDigitsAux_all fuel (n / 10), digitChar_isDigit (n % 10) h10]

theorem natDigitsAux_ne_nil (fuel n : Nat) (h : 0 < fuel) : natDigitsAux fuel n ≠ [] := by
  cases fuel with
  | zero => omega
  | succ fuel =>
    by_cases h10 : n < 10
    · simp [natDigitsAux, h10]
    · simp [natDigitsAux, h10]

theorem digit_not_ws {c : Char} (h : isDigitCh c = true) : isWsCh c = false := by
  have h1 : ¬ c = ' ' := fun he => by subst he; simp [isDigitCh] at h
  have h2 : ¬ c = '\n' := fun he => by subst he; simp [isDigitCh] at h
  have h3 : ¬ c = '\t' := fun he => by subst he; simp [isDigitCh] at h
  have h4 : ¬ c = '\r' := fun he => by subst he; simp [isDigitCh] at h
  simp [isWsCh, h1, h2, h3, h4]

theorem digit_ne {c : Char} (d : Char) (h : isDigitCh c = true)
    (hd : isDigitCh d = false) : ¬ c = d := by
  intro he
  rw [he, hd] at h
  cases h

/-- Accumulating a digit block then the remainder. -/
theorem parseDigitsAux_digits : ∀ (D : List Char), D.all isDigitCh = true →
    ∀ (rest : List Char) (acc : Nat),
    parseDigitsAux (D ++ rest) acc =
      parseDigitsAux rest (D.foldl (fun a c => 10 * a + (c.toNat - 48)) acc)
  | [], _, rest, acc => by simp
  | c :: D, h, rest, acc => by
    rw [List.all_cons, Bool.and_eq_true] at h
    simp only [List.cons_append, parseDigitsAux, h.1, if_true, List.foldl_cons]
    exact parseDigitsAux_digits D h.2 rest (10 * acc + (c.toNat - 48))

theorem parseDigitsAux_stop (rest : List Char) (acc : Nat)
    (h : headIsDigit rest = false) : parseDigitsAux rest acc = (acc, rest) := by
  cases rest with
  | nil => rfl
  | cons c cs =>
    have hc : isDigitCh c = false := by simpa [headIsDigit] using h
    simp [parseDigitsAux, hc]

theorem natDigitsAux_fold : ∀ (fuel n acc : Nat), n < fuel →
    (natDigitsAux fuel n).foldl (fun a c => 10 * a + (c.toNat - 48)) acc =
      acc * 10 ^ (natDigitsAux fuel n).length + n
  | 0, n, acc, h => by omega
  | fuel + 1, n, acc, h => by
    by_cases h10 : n < 10
    · simp [natDigitsAux, h10, digitChar_toNat n h10, pow_one]
      omega
    · have hdiv : n / 10 < fuel := by
        have h1 : n / 10 < n := Nat.div_lt_self (by omega) (by omega)
        omega
      have hmod : n % 10 < 10 := Nat.mod_lt n (by omega)
      simp only [natDigitsAux, h10, if_false, List.foldl_append, List.foldl_cons,
        List.foldl_nil, List.length_append, List.length_cons, List.length_nil,
        Nat.zero_add]
      rw [natDigitsAux_fold fuel (n / 10) acc hdiv]
      rw [digitChar_toNat (n % 10) hmod]
      have h48 : 48 + n % 10 - 48 = n % 10 := by omega
      rw [h48, Nat.pow_succ]
      ring_nf
      omega

theorem natDigits_parse0 (n : Nat) (rest : List Char) (h : headIsDigit rest = false) :
    parseDigitsAux (natDigits n ++ rest) 0 = (n, rest) := by
  rw [parseDigitsAux_digits (natDigits n) (natDigitsAux_all (n + 1) n) rest 0]
  rw [show natDigits n = natDigitsAux (n + 1) n from rfl]
  rw [natDigitsAux_fold (n + 1) n 0 (by omega)]
  rw [parseDigitsAux_stop rest _ h]
  simp

theorem natDigits_head : ∃ c cs, natDigits n = c :: cs ∧ isDigitCh c = true := by
  cases hd : natDigits n with
  | nil => exact absurd hd (natDigitsAux_ne_nil (n + 1) n (by omega))
  | cons c cs =>
    refine ⟨c, cs, rfl, ?_⟩
    have := natDigitsAux_all (n + 1) n
    rw [show natDigitsAux (n + 1) n = natDigits n from rfl, hd] at this
    simp [List.all_cons] at this
    exact this.1

/-- The first character of a serialized integer: a minus sign or a digit. -/
theorem intDigits_head (n : Int) : ∃ c cs, intDigits n = c :: cs ∧
    (c = '-' ∨ isDigitCh c = true) := by
  by_cases hn : n < 0
  · exact ⟨'-', natDigits (-n).toNat, by simp [intDigits, hn], Or.inl rfl⟩
  · obtain ⟨c, cs, hd, hc⟩ := @natDigits_head n.toNat
    exact ⟨c, cs, by simp [intDigits, hn, hd], Or.inr hc⟩

/-! ### JSON round-trip: string escaping -/

theorem skipWs_not_ws {c : Char} (l : List Char) (h : isWsCh c = false) :
    skipWs (c :: l) = c :: l := by
  simp [skipWs, h]

theorem skipWs_space (l : List Char) : skipWs (' ' :: l) = skipWs l := by
  simp [skipWs, isWsCh]

theorem escapeStr_cons (c : Char) (cs : List Char) :
    escapeStr (c :: cs) = escapeChar c ++ escapeStr cs := rfl

theorem hexVal_hexDigitLower : ∀ k, k < 16 → hexVal (hexDigitLower k) = some k := by decide

theorem char_eq_of_lt32 {c : Char} (h : c.toNat < 32) :
    Char.ofNat (16 * (c.toNat / 16) + c.toNat % 16) = c := by
  have he : 16 * (c.toNat / 16) + c.toNat % 16 = c.toNat := Nat.div_add_mod c.toNat 16
  rw [he, Char.ofNat_toNat]

theorem parseStrBody_escape : ∀ (s rest : List Char),
    parseStrBody (escapeStr s ++ '"' :: rest) = some (s, rest)
  | [], rest => by
    rw [show escapeStr [] = [] from rfl, List.nil_append, parseStrBody.eq_def]
    simp
  | c :: cs, rest => by
    rw [escapeStr_cons, List.append_assoc]
    have ih := parseStrBody_escape cs rest
    by_cases h1 : c = '"'
    · subst h1
      rw [parseStrBody.eq_def]
      simp [escapeChar, escDecode, ih]
    · by_cases h2 : c = '\\'
      · subst h2
        rw [parseStrBody.eq_def]
        simp [escapeChar, escDecode, ih]
      · by_cases h3 : c = '\n'
        · subst h3
          rw [parseStrBody.eq_def]
          simp [escapeChar, escDecode, ih]
        · by_cases h4 : c = '\t'
          · subst h4
            rw [parseStrBody.eq_def]
            simp [escapeChar, escDecode, ih]
          · by_cases h5 : c = '\r'
            · subst h5
              rw [parseStrBody.eq_def]
              simp [escapeChar, escDecode, ih]
            · by_cases h6 : c.toNat = 8
              · have hc : Char.ofNat 8 = c := by rw [← h6, Char.ofNat_toNat]
                rw [parseStrBody.eq_def]
                simp [escapeChar, h1, h2, h3, h4, h5, h6, escDecode, ih]
                exact hc
              · by_cases h7 : c.toNat = 12
                · have hc : Char.ofNat 12 = c := by rw [← h7, Char.ofNat_toNat]
                  rw [parseStrBody.eq_def]
                  simp [escapeChar, h1, h2, h3, h4, h5, h6, h7, escDecode, ih]
                  exact hc
                · by_cases h8 : c.toNat < 32
                  · have hdiv : c.toNat / 16 < 16 := by omega
                    have hmod : c.toNat % 16 < 16 := by omega
                    have h0 : hexVal '0' = some 0 := by decide
                    rw [parseStrBody.eq_def]
                    simp [escapeChar, h1, h2, h3, h4, h5, h6, h7, h8, h0,
                      hexVal_hexDigitLower _ hdiv, hexVal_hexDigitLower _ hmod, ih,
                      char_eq_of_lt32 h8]
                  · rw [parseStrBody.eq_def]
                    simp [escapeChar, h1, h2, h3, h4, h5, h6, h7, h8, ih]

/-! ### JSON round-trip: sizes and head shapes -/

mutual

/-- Structural size of a JSON value (a fuel lower bound for the parser). -/
def sizeJ : Json → Nat
  | .arr xs => 1 + sizeL xs
  | .obj kvs => 1 + sizeO kvs
  | _ => 1

/-- Structural size of a JSON array's elements. -/
def sizeL : JsonList → Nat
  | .nil => 1
  | .cons hd tl => 1 + sizeJ hd + sizeL tl

/-- Structural size of a JSON object's members. -/
def sizeO : JsonObj → Nat
  | .nil => 1
  | .cons _ v tl => 1 + sizeJ v + sizeO tl

end

theorem sizeJ_pos (v : Json) : 1 ≤ sizeJ v := by
  cases v <;> simp [sizeJ] <;> omega

theorem sizeL_pos (xs : JsonList) : 1 ≤ sizeL xs := by
  cases xs <;> simp [sizeL] <;> omega

theorem sizeO_pos (kvs : JsonObj) : 1 ≤ sizeO kvs := by
  cases kvs <;> simp [sizeO] <;> omega

mutual

theorem sizeJ_le : ∀ v : Json, sizeJ v ≤ 2 * (Json.dumpsData v).length
  | .null => by simp [sizeJ, Json.dumpsData]
  | .bool b => by cases b <;> simp [sizeJ, Json.dumpsData]
  | .num n => by
    obtain ⟨c, cs, hd, _⟩ := intDigits_head n
    simp [sizeJ, Json.dumpsData, hd]
    omega
  | .str s => by
    simp [sizeJ, Json.dumpsData, quoteJsonStr]
    omega
  | .arr xs => by
    have h := sizeL_le xs
    simp only [sizeJ, Json.dumpsData, List.length_cons, List.length_append,
      List.length_nil]
    omega
  | .obj kvs => by
    have h := sizeO_le kvs
    simp only [sizeJ, Json.dumpsData, List.length_cons, List.length_append,
      List.length_nil]
    omega

theorem sizeL_le : ∀ xs : JsonList, sizeL xs ≤ 2 * (dumpsList xs).length + 2
  | .nil => by simp [sizeL, dumpsList]
  | .cons hd .nil => by
    have h := sizeJ_le hd
    simp only [sizeL, dumpsList]
    omega
  | .cons hd (.cons h2 t2) => by
    have ha := sizeJ_le hd
    have hb := sizeL_le (.cons h2 t2)
    rw [show sizeL (.cons hd (.cons h2 t2)) = 1 + sizeJ hd + sizeL (.cons h2 t2) from rfl,
      show dumpsList (.cons hd (.cons h2 t2)) =
        Json.dumpsData hd ++ ',' :: ' ' :: dumpsList (.cons h2 t2) from rfl]
    simp only [List.length_append, List.length_cons]
    omega

theorem sizeO_le : ∀ kvs : JsonObj, sizeO kvs ≤ 2 * (dumpsMembers kvs).length + 2
  | .nil => by simp [sizeO, dumpsMembers]
  | .cons k v .nil => by
    have h := sizeJ_le v
    simp only [sizeO, dumpsMembers, quoteJsonStr, List.length_append, List.length_cons]
    omega
  | .cons k v (.cons k2 v2 t2) => by
    have ha := sizeJ_le v
    have hb := sizeO_le (.cons k2 v2 t2)
    rw [show sizeO (.cons k v (.cons k2 v2 t2)) = 1 + sizeJ v + sizeO (.cons k2 v2 t2) from rfl,
      show dumpsMembers (.cons k v (.cons k2 v2 t2)) =
        quoteJsonStr k ++ ':' :: ' ' :: Json.dumpsData v ++
          ',' :: ' ' :: dumpsMembers (.cons k2 v2 t2) from rfl]
    simp only [quoteJsonStr, List.length_append, List.length_cons]
    omega

end

/-- Serialized JSON values start with a character that is not whitespace and
not one of the container/separator delimiters. -/
theorem dumps_head (v : Json) : ∃ c cs, Json.dumpsData v = c :: cs ∧
    isWsCh c = false ∧ ¬ c = ']' ∧ ¬ c = ',' ∧ ¬ c = '\x7d' := by
  cases v with
  | null => exact ⟨'n', _, rfl, by decide, by decide, by decide, by decide⟩
  | bool b =>
    cases b with
    | true => exact ⟨'t', _, rfl, by decide, by decide, by decide, by decide⟩
    | false => exact ⟨'f', _, rfl, by decide, by decide, by decide, by decide⟩
  | num n =>
    obtain ⟨c, cs, hd, hc⟩ := intDigits_head n
    refine ⟨c, cs, by simp [Json.dumpsData, hd], ?_, ?_, ?_, ?_⟩
    · rcases hc with hc | hc
      · subst hc; decide
      · exact digit_not_ws hc
    · rcases hc with hc | hc
      · subst hc; decide
      · exact digit_ne ']' hc (by decide)
    · rcases hc with hc | hc
      · subst hc; decide
      · exact digit_ne ',' hc (by decide)
    · rcases hc with hc | hc
      · subst hc; decide
      · exact digit_ne '\x7d' hc (by decide)
  | str s => exact ⟨'"', _, rfl, by decide, by decide, by decide, by decide⟩
  | arr xs => exact ⟨'[', _, rfl, by decide, by decide, by decide, by decide⟩
  | obj kvs => exact ⟨'\x7b', _, rfl, by decide, by decide, by decide, by decide⟩

theorem skipWs_dumps (v : Json) (r : List Char) :
    skipWs (Json.dumpsData v ++ r) = Json.dumpsData v ++ r := by
  obtain ⟨c, cs, hd, hws, _⟩ := dumps_head v
  rw [hd, List.cons_append, skipWs_not_ws _ hws]

theorem headIs_dumps (v : Json) (r : List Char) :
    headIs (Json.dumpsData v ++ r) ']' = false ∧
    headIs (Json.dumpsData v ++ r) ',' = false ∧
    headIs (Json.dumpsData v ++ r) '\x7d' = false := by
  obtain ⟨c, cs, hd, _, h1, h2, h3⟩ := dumps_head v
  rw [hd, List.cons_append]
  exact ⟨by simp [headIs, h1], by simp [headIs, h2], by simp [headIs, h3]⟩

theorem headIsDigit_cons (c : Char) (l : List Char) :
    headIsDigit (c :: l) = isDigitCh c := rfl

theorem parseVal_ws (fuel : Nat) (l : List Char) :
    parseVal fuel (' ' :: l) = parseVal fuel l := by
  cases fuel with
  | zero => rfl
  | succ fuel =>
    rw [parseVal.eq_def, parseVal.eq_def]
    simp [skipWs_space]

theorem parseArrItems_ws (fuel : Nat) (l : List Char) :
    parseArrItems fuel (' ' :: l) = parseArrItems fuel l := by
  cases fuel with
  | zero => rfl
  | succ fuel =>
    rw [parseArrItems.eq_def, parseArrItems.eq_def]
    simp [skipWs_space]

theorem parseObjItems_ws (fuel : Nat) (l : List Char) :
    parseObjItems fuel (' ' :: l) = parseObjItems fuel l := by
  cases fuel with
  | zero => rfl
  | succ fuel =>
    rw [parseObjItems.eq_def, parseObjItems.eq_def]
    simp [skipWs_space]

theorem beq_false_of_ne {a b : Char} (h : ¬ a = b) : (a == b) = false := by
  simpa using h

theorem not_prefix_of_head_ne {d : Char} (p : List Char) {c : Char} (cs : List Char)
    (h : ¬ d = c) : List.isPrefixOf (d :: p) (c :: cs) = false := by
  simp [List.isPrefixOf, beq_false_of_ne h]

/-! ### JSON round-trip: the parser inverts the serializer -/

/-- With enough fuel, `parseVal` parses a serialized value back exactly (and
`parseArrItems` / `parseObjItems` do the same for serialized element and
member lists up to their closing delimiter). -/
theorem parse_dumps : ∀ fuel : Nat,
    (∀ (v : Json) (rest : List Char), sizeJ v ≤ fuel → headIsDigit rest = false →
      parseVal fuel (Json.dumpsData v ++ rest) = some (v, rest)) ∧
    (∀ (xs : JsonList) (rest : List Char), sizeL xs ≤ fuel →
      parseArrItems fuel (dumpsList xs ++ ']' :: rest) = some (.arr xs, rest)) ∧
    (∀ (kvs : JsonObj) (rest : List Char), sizeO kvs ≤ fuel →
      parseObjItems fuel (dumpsMembers kvs ++ '\x7d' :: rest) = some (.obj kvs, rest)) := by
  intro fuel
  induction fuel with
  | zero =>
    refine ⟨fun v rest hs _ => ?_, fun xs rest hs => ?_, fun kvs rest hs => ?_⟩
    · have := sizeJ_pos v; omega
    · have := sizeL_pos xs; omega
    · have := sizeO_pos kvs; omega
  | succ fuel ih =>
    obtain ⟨ih1, ih2, ih3⟩ := ih
    refine ⟨?_, ?_, ?_⟩
    · intro v rest hs hrest
      cases v with
      | null =>
        rw [show Json.dumpsData .null = ['n', 'u', 'l', 'l'] from rfl, parseVal.eq_def]
        simp [skipWs, isWsCh, List.isPrefixOf]
      | bool b =>
        cases b with
        | true =>
          rw [show Json.dumpsData (.bool true) = ['t', 'r', 'u', 'e'] from rfl, parseVal.eq_def]
          simp [skipWs, isWsCh, List.isPrefixOf]
        | false =>
          rw [show Json.dumpsData (.bool false) = ['f', 'a', 'l', 's', 'e'] from rfl,
            parseVal.eq_def]
          simp [skipWs, isWsCh, List.isPrefixOf]
      | str s =>
        rw [show Json.dumpsData (.str s) = '"' :: (escapeStr s.data ++ ['"']) from rfl,
          parseVal.eq_def]
        simp only [List.cons_append, List.append_assoc, List.nil_append]
        simp [skipWs, isWsCh, List.isPrefixOf, headIs, parseStrBody_escape]
      | num n =>
        by_cases hn : n < 0
        · obtain ⟨c, cs, hdm, hcm⟩ := @natDigits_head (-n).toNat
          have hint : (((-n).toNat : Nat) : Int) = -n := Int.toNat_of_nonneg (by omega)
          have hpd := natDigits_parse0 (-n).toNat rest hrest
          have hd2 : headIsDigit (natDigits (-n).toNat ++ rest) = true := by
            rw [hdm, List.cons_append, headIsDigit_cons]; exact hcm
          rw [show Json.dumpsData (.num n) = intDigits n from rfl,
            show intDigits n = '-' :: natDigits (-n).toNat from by simp [intDigits, hn],
            List.cons_append, parseVal.eq_def]
          simp [skipWs, isWsCh, List.isPrefixOf, headIs, hd2, hpd, hint, neg_neg]
        · obtain ⟨c, cs, hdm, hcm⟩ := @natDigits_head n.toNat
          have hint : ((n.toNat : Nat) : Int) = n := Int.toNat_of_nonneg (by omega)
          have hpd : parseDigitsAux (c :: (cs ++ rest)) 0 = (n.toNat, rest) := by
            have hh := natDigits_parse0 n.toNat rest hrest
            rw [hdm] at hh
            rw [← List.cons_append]
            exact hh
          have hskip : skipWs (c :: (cs ++ rest)) = c :: (cs ++ rest) :=
            skipWs_not_ws _ (digit_not_ws hcm)
          have hp1 : List.isPrefixOf ['n', 'u', 'l', 'l'] (c :: (cs ++ rest)) = false :=
            not_prefix_of_head_ne _ _
              (fun he => by rw [← he] at hcm; exact absurd hcm (by decide))
          have hp2 : List.isPrefixOf ['t', 'r', 'u', 'e'] (c :: (cs ++ rest)) = false :=
            not_prefix_of_head_ne _ _
              (fun he => by rw [← he] at hcm; exact absurd hcm (by decide))
          have hp3 : List.isPrefixOf ['f', 'a', 'l', 's', 'e'] (c :: (cs ++ rest)) = false :=
            not_prefix_of_head_ne _ _
              (fun he => by rw [← he] at hcm; exact absurd hcm (by decide))
          have hq : headIs (c :: (cs ++ rest)) '"' = false := by
            have hne : ¬ c = '"' := fun he => by rw [he] at hcm; exact absurd hcm (by decide)
            simp [headIs, hne]
          have hm : headIs (c :: (cs ++ rest)) '-' = false := by
            have hne : ¬ c = '-' := fun he => by rw [he] at hcm; exact absurd hcm (by decide)
            simp [headIs, hne]
          have hd2 : headIsDigit (c :: (cs ++ rest)) = true := by
            rw [headIsDigit_cons]; exact hcm
          rw [show Json.dumpsData (.num n) = intDigits n from rfl,
            show intDigits n = natDigits n.toNat from by simp [intDigits, hn], hdm,
            List.cons_append, parseVal.eq_def]
          simp [hskip, hp1, hp2, hp3, hq, hm, hd2, hpd, hint]
      | arr xs =>
        have hsz : sizeL xs ≤ fuel := by
          rw [show sizeJ (.arr xs) = 1 + sizeL xs from rfl] at hs
          omega
        rw [show Json.dumpsData (.arr xs) = '[' :: (dumpsList xs ++ [']']) from rfl,
          parseVal.eq_def]
        simp only [List.cons_append, List.append_assoc, List.nil_append]
        have hnd : headIsDigit ('[' :: (dumpsList xs ++ ']' :: rest)) = false := by
          rw [headIsDigit_cons]; decide
        simp [skipWs, isWsCh, List.isPrefixOf, headIs, hnd, ih2 xs rest hsz]
      | obj kvs =>
        have hsz : sizeO kvs ≤ fuel := by
          rw [show sizeJ (.obj kvs) = 1 + sizeO kvs from rfl] at hs
          omega
        rw [show Json.dumpsData (.obj kvs) = '\x7b' :: (dumpsMembers kvs ++ ['\x7d']) from rfl,
          parseVal.eq_def]
        simp only [List.cons_append, List.append_assoc, List.nil_append]
        have hnd : headIsDigit ('\x7b' :: (dumpsMembers kvs ++ '\x7d' :: rest)) = false := by
          rw [headIsDigit_cons]; decide
        simp [skipWs, isWsCh, List.isPrefixOf, headIs, hnd, ih3 kvs rest hsz]
    · intro xs rest hs
      cases xs with
      | nil =>
        rw [show dumpsList .nil = ([] : List Char) from rfl, List.nil_append,
          parseArrItems.eq_def]
        simp [skipWs, isWsCh, headIs]
      | cons hd tl =>
        have hhd : sizeJ hd ≤ fuel := by
          rw [show sizeL (.cons hd tl) = 1 + sizeJ hd + sizeL tl from rfl] at hs
          have := sizeL_pos tl
          omega
        have htl : sizeL tl ≤ fuel := by
          rw [show sizeL (.cons hd tl) = 1 + sizeJ hd + sizeL tl from rfl] at hs
          have := sizeJ_pos hd
          omega
        cases tl with
        | nil =>
          rw [show dumpsList (.cons hd .nil) = Json.dumpsData hd from rfl,
            parseArrItems.eq_def]
          obtain ⟨hb1, hb2, hb3⟩ := headIs_dumps hd (']' :: rest)
          have hv := ih1 hd (']' :: rest) hhd (by rw [headIsDigit_cons]; decide)
          have hr1 : skipWs (']' :: rest) = ']' :: rest := skipWs_not_ws _ (by decide)
          have hr2 : headIs (']' :: rest) ',' = false := by simp [headIs]
          have hr3 : headIs (']' :: rest) ']' = true := by simp [headIs]
          simp [skipWs_dumps, hb1, hv, hr1, hr2, hr3]
        | cons e2 t2 =>
          rw [show dumpsList (.cons hd (.cons e2 t2)) =
              Json.dumpsData hd ++ ',' :: ' ' :: dumpsList (.cons e2 t2) from rfl,
            parseArrItems.eq_def]
          simp only [List.append_assoc, List.cons_append]
          obtain ⟨hb1, hb2, hb3⟩ :=
            headIs_dumps hd (',' :: ' ' :: (dumpsList (.cons e2 t2) ++ ']' :: rest))
          have hv := ih1 hd (',' :: ' ' :: (dumpsList (.cons e2 t2) ++ ']' :: rest)) hhd
            (by rw [headIsDigit_cons]; decide)
          have ha := ih2 (.cons e2 t2) rest htl
          have hr1 : skipWs (',' :: ' ' :: (dumpsList (.cons e2 t2) ++ ']' :: rest)) =
              ',' :: ' ' :: (dumpsList (.cons e2 t2) ++ ']' :: rest) :=
            skipWs_not_ws _ (by decide)
          have hr2 : headIs (',' :: ' ' :: (dumpsList (.cons e2 t2) ++ ']' :: rest)) ',' = true := by
            simp [headIs]
          simp [skipWs_dumps, hb1, hv, hr1, hr2, parseArrItems_ws, ha]
    · intro kvs rest hs
      cases kvs with
      | nil =>
        rw [show dumpsMembers .nil = ([] : List Char) from rfl, List.nil_append,
          parseObjItems.eq_def]
        simp [skipWs, isWsCh, headIs]
      | cons k v tl =>
        have hhd : sizeJ v ≤ fuel := by
          rw [show sizeO (.cons k v tl) = 1 + sizeJ v + sizeO tl from rfl] at hs
          have := sizeO_pos tl
          omega
        have htl : sizeO tl ≤ fuel := by
          rw [show sizeO (.cons k v tl) = 1 + sizeJ v + sizeO tl from rfl] at hs
          have := sizeJ_pos v
          omega
        cases tl with
        | nil =>
          rw [show dumpsMembers (.cons k v .nil) =
              quoteJsonStr k ++ ':' :: ' ' :: Json.dumpsData v from rfl,
            show quoteJsonStr k = '"' :: (escapeStr k.data ++ ['"']) from rfl,
            parseObjItems.eq_def]
          simp only [List.append_assoc, List.cons_append, List.nil_append]
          have hk := parseStrBody_escape k.data
            (':' :: ' ' :: (Json.dumpsData v ++ '\x7d' :: rest))
          have hv := ih1 v ('\x7d' :: rest) hhd (by rw [headIsDigit_cons]; decide)
          simp [skipWs, isWsCh, headIs, hk, parseVal_ws, hv]
        | cons k2 v2 t2 =>
          rw [show dumpsMembers (.cons k v (.cons k2 v2 t2)) =
              quoteJsonStr k ++ ':' :: ' ' :: Json.dumpsData v ++
                ',' :: ' ' :: dumpsMembers (.cons k2 v2 t2) from rfl,
            show quoteJsonStr k = '"' :: (escapeStr k.data ++ ['"']) from rfl,
            parseObjItems.eq_def]
          simp only [List.append_assoc, List.cons_append, List.nil_append]
          have hk := parseStrBody_escape k.data
            (':' :: ' ' :: (Json.dumpsData v ++
              ',' :: ' ' :: (dumpsMembers (.cons k2 v2 t2) ++ '\x7d' :: rest)))
          have hv := ih1 v
            (',' :: ' ' :: (dumpsMembers (.cons k2 v2 t2) ++ '\x7d' :: rest)) hhd
            (by rw [headIsDigit_cons]; decide)
          have ho := ih3 (.cons k2 v2 t2) rest htl
          simp [skipWs, isWsCh, headIs, hk, parseVal_ws, hv, parseObjItems_ws, ho]

/-- `json.loads` inverts `json.dumps` on every JSON value. -/
theorem json_loads_dumps (v : Json) : Json.loads (Json.dumps v) = some v := by
  unfold Json.loads Json.dumps
  have hsz : sizeJ v ≤ 2 * (String.mk (Json.dumpsData v)).length + 2 := by
    have h1 := sizeJ_le v
    have h2 : (String.mk (Json.dumpsData v)).length = (Json.dumpsData v).length := rfl
    omega
  have hp := (parse_dumps (2 * (String.mk (Json.dumpsData v)).length + 2)).1 v [] hsz rfl
  rw [List.append_nil] at hp
  have hlen : (String.mk (Json.dumpsData v)).length = (Json.dumpsData v).length := rfl
  rw [hlen] at hp
  simp [hp, skipWs]

/-! ### Claim C9: JSON round-trip -/

/-- C9: registering a spec with `json=m` (no explicit content type) and
dispatching a matching request produces a response whose body deserializes
back to `m` and whose content type is `application/json`. -/
theorem claim_C9 (kvs : JsonObj) (method : String) (url : UrlSpec) (status : Nat)
    (mq : MatchQS) (request : Request) (st : MockState) (spec : Spec)
    (hinit : Response.init method url (.str "") (some (.obj kvs)) status none false
      .unset mq [] = .ok spec)
    (hreg : st._matches = [spec])
    (hmatch : (spec.matches request).1 = true) :
    ∃ r, (_on_request st request).1 = .resp r ∧
      Json.loads r.body = some (.obj kvs) ∧
      hdGet r.headers "Content-Type" = some "application/json" := by
  have hspec : spec = BaseResponse.init method url mq []
      (.static (.str (Json.dumps (.obj kvs))) status none false
        (some "application/json")) := by
    simp [Response.init] at hinit
    exact hinit.symm
  subst hspec
  refine ⟨{ status := status, reason := http_reason status
            body := Json.dumps (.obj kvs)
            headers := get_headers (some "application/json") none }, ?_, ?_, ?_⟩
  · have hstep := on_request_single st request [] [] _ (by simpa using hreg) hmatch
      (by simp) (by simp)
    rw [hstep]
    simp [answerFor, Spec.get_response, BaseResponse.init]
  · exact json_loads_dumps (.obj kvs)
  · rfl

/-- Witness for C9 at `{"a": 1}`: the dispatched response body parses back to
the object and carries the JSON content type. -/
theorem claim_C9_witness :
    ∃ r, (_on_request (exState [exSpecJson]) exReq).1 = .resp r ∧
      Json.loads r.body = some (.obj exJson) ∧
      hdGet r.headers "Content-Type" = some "application/json" :=
  claim_C9 exJson "GET" (.lit "http://example.com/") 200 .unspecified exReq
    (exState [exSpecJson]) exSpecJson (by rfl) rfl (by decide)

end Responses
